import Mathlib

/-!
Verification development for the seasonality decomposition engine of the
Tuscany tourism statistics service (src/stats-service/seasonality).

The Python code computes with IEEE floating point numbers.  We embed a float
as an exact value: either a finite real number, a signed infinity, or NaN
(the code uses NaN as its null marker throughout).  Rounding error is not
modelled; the spec states its numeric properties up to floating tolerance,
which the exact model realises as exact equality.
-/

namespace Tuscany

/-- Model of an IEEE double as used by numpy/pandas in the source: a finite
real value, a signed infinity (neg = true for negative infinity), or NaN.
NaN is the null marker of the pipeline. -/
inductive F where
  | num (x : ℝ)
  | inf (neg : Bool)
  | nan

/-- True exactly on NaN, the code's null marker (np.isnan). -/
def F.isNanB : F → Bool
  | .nan => true
  | _ => false

/-- True exactly on finite values (np.isfinite). -/
def F.isFiniteB : F → Bool
  | .num _ => true
  | _ => false

/-- The substitution np.nansum applies before summing: NaN is read as 0. -/
def denan : F → F
  | .nan => .num 0
  | v => v

/-- IEEE addition on the embedded floats (exact on finite values). -/
def faddF : F → F → F
  | .nan, _ => .nan
  | .num a, .num b => .num (a + b)
  | .num _, .inf s => .inf s
  | .inf s, .num _ => .inf s
  | .inf s, .inf t => if s = t then .inf s else .nan
  | _, .nan => .nan

open Classical in
/-- IEEE multiplication by a finite real scalar (exact on finite values). -/
noncomputable def fmulc (c : ℝ) : F → F
  | .num a => .num (a * c)
  | .nan => .nan
  | .inf s => if c = 0 then .nan else .inf (xor s (decide (c < 0)))

open Classical in
/-- IEEE multiplication of two embedded floats (exact on finite values). -/
noncomputable def fmulF : F → F → F
  | .nan, _ => .nan
  | .num a, .num b => .num (a * b)
  | .num a, .inf s => if a = 0 then .nan else .inf (xor s (decide (a < 0)))
  | .inf s, .num b => if b = 0 then .nan else .inf (xor s (decide (b < 0)))
  | .inf s, .inf t => .inf (xor s t)
  | _, .nan => .nan

open Classical in
/-- IEEE division of two embedded floats (exact on finite values): division of
a nonzero finite value by zero gives a signed infinity, 0/0 gives NaN, and a
finite value divided by an infinity gives 0. -/
noncomputable def fdivF : F → F → F
  | .nan, _ => .nan
  | .num a, .num b =>
      if b = 0 then (if a = 0 then .nan else .inf (decide (a < 0))) else .num (a / b)
  | .num _, .inf _ => .num 0
  | .inf s, .num b => if b = 0 then .inf s else .inf (xor s (decide (b < 0)))
  | .inf _, .inf _ => .nan
  | _, .nan => .nan

/-- np.nansum over an array: every NaN entry is read as 0, then the entries
are summed left to right with IEEE addition. -/
def nansumF (xs : List F) : F :=
  xs.foldl (fun acc x => faddF acc (denan x)) (.num 0)

/-- The exact sum of the non-null (finite) entries of an array; the reference
value the spec means by the sum of non-null entries. -/
def nnSum (xs : List F) : ℝ :=
  (xs.filterMap (fun v => match v with | .num x => some x | _ => none)).sum

open Classical in
/-- Branch of the scaling utility on the already-computed total: a finite
nonzero total rescales every entry by 1200 / total, any other total (NaN,
infinite, or zero) passes the array through unchanged. -/
noncomputable def scaleWithTotal : F → List F → List F
  | .num total, xs => if total = 0 then xs else xs.map (fmulc (1200 / total))
  | _, xs => xs

/-- Embeds utils.scale_base100_to_sum1200: if the NaN-ignoring sum of the
12-entry array is non-finite or exactly zero the input is returned unchanged,
otherwise every entry is multiplied by 1200 divided by that sum. -/
noncomputable def scale_base100_to_sum1200 (seasonal_index_base100_12 : List F) : List F :=
  scaleWithTotal (nansumF seasonal_index_base100_12) seasonal_index_base100_12

/-- Shape predicate: every entry of the array is either NaN or a finite value. -/
def NumOrNan (xs : List F) : Prop :=
  ∀ x ∈ xs, x = F.nan ∨ ∃ r : ℝ, x = F.num r

/-- Shape predicate: every entry of the array is either NaN or a positive
finite value. -/
def NumPosOrNan (xs : List F) : Prop :=
  ∀ x ∈ xs, x = F.nan ∨ ∃ r : ℝ, x = F.num r ∧ 0 < r

theorem NumPosOrNan.numOrNan {xs : List F} (h : NumPosOrNan xs) : NumOrNan xs := by
  intro x hx
  rcases h x hx with h1 | ⟨r, hr, _⟩
  · exact Or.inl h1
  · exact Or.inr ⟨r, hr⟩

theorem nansumF_go (xs : List F) (h : NumOrNan xs) (a : ℝ) :
    xs.foldl (fun acc x => faddF acc (denan x)) (.num a) = .num (a + nnSum xs) := by
  induction xs generalizing a with
  | nil => simp [nnSum]
  | cons x xs ih =>
    have hx := h x (List.mem_cons_self x xs)
    have hxs : NumOrNan xs := fun y hy => h y (List.mem_cons_of_mem x hy)
    rcases hx with rfl | ⟨r, rfl⟩
    · simpa [denan, faddF, nnSum] using ih hxs a
    · have := ih hxs (a + r)
      simp only [List.foldl_cons, denan, faddF] at *
      rw [this]
      simp [nnSum, add_assoc]

/-- On an array whose entries are all finite or NaN, np.nansum computes
exactly the sum of the finite entries. -/
theorem nansumF_eq_nnSum (xs : List F) (h : NumOrNan xs) :
    nansumF xs = .num (nnSum xs) := by
  simpa using nansumF_go xs h 0

theorem nnSum_pos (xs : List F) (h : NumPosOrNan xs)
    (hex : ∃ x ∈ xs, x ≠ F.nan) : 0 < nnSum xs := by
  induction xs with
  | nil => simp at hex
  | cons x xs ih =>
    have hx := h x (List.mem_cons_self x xs)
    have hxs : NumPosOrNan xs := fun y hy => h y (List.mem_cons_of_mem x hy)
    have hnn : 0 ≤ nnSum xs := by
      unfold nnSum
      apply List.sum_nonneg
      intro a ha
      rcases List.mem_filterMap.1 ha with ⟨v, hv, hva⟩
      rcases hxs v hv with rfl | ⟨r, rfl, hr⟩
      · simp at hva
      · simp at hva
        exact hva ▸ le_of_lt hr
    rcases hx with rfl | ⟨r, rfl, hr⟩
    · rcases hex with ⟨z, hz, hzn⟩
      rcases List.mem_cons.1 hz with rfl | hz₂
      · exact absurd rfl hzn
      · have := ih hxs ⟨z, hz₂, hzn⟩
        simpa [nnSum] using this
    · have : nnSum (F.num r :: xs) = r + nnSum xs := by simp [nnSum]
      rw [this]
      linarith

theorem nnSum_map_fmulc (xs : List F) (h : NumOrNan xs) (c : ℝ) :
    nnSum (xs.map (fmulc c)) = c * nnSum xs := by
  induction xs with
  | nil => simp [nnSum]
  | cons x xs ih =>
    have hx := h x (List.mem_cons_self x xs)
    have hxs : NumOrNan xs := fun y hy => h y (List.mem_cons_of_mem x hy)
    rcases hx with rfl | ⟨r, rfl⟩
    · simpa [nnSum, fmulc] using ih hxs
    · have h1 : nnSum (F.num r :: xs) = r + nnSum xs := by simp [nnSum]
      have h2 : nnSum ((F.num r :: xs).map (fmulc c)) = r * c + nnSum (xs.map (fmulc c)) := by
        simp [nnSum, fmulc]
      rw [h1, h2, ih hxs]
      ring

theorem numOrNan_map_fmulc (xs : List F) (h : NumOrNan xs) (c : ℝ) :
    NumOrNan (xs.map (fmulc c)) := by
  intro x hx
  rcases List.mem_map.1 hx with ⟨v, hv, rfl⟩
  rcases h v hv with rfl | ⟨r, rfl⟩
  · simp [fmulc]
  · exact Or.inr ⟨r * c, rfl⟩

/-- Multiplying by the scalar 1 is the identity on every embedded float. -/
theorem fmulc_one (x : F) : fmulc 1 x = x := by
  cases x with
  | num a => simp [fmulc]
  | inf s =>
    simp only [fmulc]
    rw [if_neg one_ne_zero, decide_eq_false (by norm_num : ¬ (1 : ℝ) < 0)]
    simp
  | nan => simp [fmulc]

/-- Scaling an array whose NaN-ignoring sum is already exactly 1200 returns
the array unchanged: the scale factor collapses to 1. -/
theorem scale_eq_self_of_nansum_1200 (xs : List F) (h : nansumF xs = F.num 1200) :
    scale_base100_to_sum1200 xs = xs := by
  unfold scale_base100_to_sum1200
  rw [h]
  simp only [scaleWithTotal]
  have h1200 : (1200 : ℝ) ≠ 0 := by norm_num
  rw [if_neg h1200]
  have hc : (1200 : ℝ) / 1200 = 1 := by norm_num
  rw [hc, show fmulc 1 = id from funext fmulc_one, List.map_id]

/-- The main normalization lemma: on an array whose entries are all NaN or
positive and which has at least one non-NaN entry, the scaling utility
produces an array of the same length whose non-null entries sum to 1200. -/
theorem scale_pos_spec (xs : List F) (h : NumPosOrNan xs)
    (hex : ∃ x ∈ xs, x ≠ F.nan) :
    (scale_base100_to_sum1200 xs).length = xs.length ∧
      nnSum (scale_base100_to_sum1200 xs) = 1200 ∧
      NumPosOrNan (scale_base100_to_sum1200 xs) := by
  have hnum := h.numOrNan
  have hsum := nansumF_eq_nnSum xs hnum
  have hpos := nnSum_pos xs h hex
  have hne : nnSum xs ≠ 0 := ne_of_gt hpos
  have hscale : scale_base100_to_sum1200 xs = xs.map (fmulc (1200 / nnSum xs)) := by
    unfold scale_base100_to_sum1200
    rw [hsum]
    simp only [scaleWithTotal]
    rw [if_neg hne]
  refine ⟨?_, ?_, ?_⟩
  · rw [hscale]; simp
  · rw [hscale, nnSum_map_fmulc xs hnum]
    field_simp
  · rw [hscale]
    intro x hx
    rcases List.mem_map.1 hx with ⟨v, hv, rfl⟩
    rcases h v hv with rfl | ⟨r, rfl, hr⟩
    · simp [fmulc]
    · refine Or.inr ⟨r * (1200 / nnSum xs), rfl, ?_⟩
      have : 0 < (1200 : ℝ) / nnSum xs := by positivity
      positivity

/-- A NaN entry of the input is a NaN entry of the scaled output at the same
position, in both the passthrough branch and the scaling branch. -/
theorem scale_getD_nan (xs : List F) (i : ℕ) (h : xs.getD i F.nan = F.nan) :
    (scale_base100_to_sum1200 xs).getD i F.nan = F.nan := by
  unfold scale_base100_to_sum1200
  cases hs : nansumF xs with
  | num total =>
    simp only [scaleWithTotal]
    by_cases ht : total = 0
    · rw [if_pos ht]; exact h
    · rw [if_neg ht]
      by_cases hi : i < xs.length
      · rw [List.getD_eq_getElem _ _ hi] at h
        rw [List.getD_eq_getElem _ _ (by simpa using hi)]
        simp only [List.getElem_map, h]
        simp [fmulc]
      · rw [List.getD_eq_default _ _ (by simpa using Nat.le_of_not_lt hi)]
  | inf s => exact h
  | nan => exact h

/-- The scaling utility never changes the length of its input. -/
theorem scale_length (xs : List F) :
    (scale_base100_to_sum1200 xs).length = xs.length := by
  unfold scale_base100_to_sum1200
  cases nansumF xs with
  | num total =>
    simp only [scaleWithTotal]
    by_cases ht : total = 0
    · rw [if_pos ht]
    · rw [if_neg ht]; simp
  | inf s => rfl
  | nan => rfl

/-! Raw tabular input and the schema adapter (schema_adapter.py). -/

/-- A first-of-month date as produced by parsing a year-month string: the
pipeline only ever constructs dates whose day is the first of the month, so
the day component is omitted. -/
structure Date where
  year : ℕ
  month : ℕ
deriving DecidableEq, Repr

/-- A cell of the raw input table: a string, a finite number, or a missing
value (None/NaN before canonicalization). -/
inductive Cell where
  | cstr (s : String)
  | cnum (x : ℝ)
  | cnull

/-- A raw DataFrame: its column names, and its rows as association lists from
column name to cell.  A column name absent from a row reads as a missing
value; presence of a column is judged by the cols list, mirroring
df.columns membership tests. -/
structure RawTable where
  cols : List String
  rows : List (List (String × Cell))

/-- Reads one cell of a raw row. -/
def getCell (row : List (String × Cell)) (c : String) : Cell :=
  match row.find? (fun p => p.1 == c) with
  | some p => p.2
  | none => Cell.cnull

/-- Splits a character list on a separator character, the splitOn used by
the year-month and decimal grammars. -/
def splitOnChar (c : Char) : List Char → List (List Char)
  | [] => [[]]
  | x :: xs =>
    let r := splitOnChar c xs
    if x = c then [] :: r
    else match r with
      | [] => [[x]]
      | h :: t => (x :: h) :: t

/-- True when the character list is nonempty and all digits. -/
def allDigits (cs : List Char) : Bool :=
  !cs.isEmpty && cs.all (fun ch => ch.isDigit)

/-- Reads a digit string as a natural number. -/
def digitsToNat (cs : List Char) : ℕ :=
  cs.foldl (fun acc c => acc * 10 + (c.toNat - 48)) 0

/-- Embeds pd.to_datetime(s + "-01", format="%Y-%m-%d", errors="coerce") on a
year-month string: the string must be a 1-4 digit year, a dash, and a 1-2
digit month between 01 and 12; anything else coerces to NaT (none).  The
pandas Timestamp year range (1677..2262) is not modelled beyond requiring a
positive year. -/
def parseYearMonth (s : String) : Option Date :=
  match splitOnChar ('-') s.toList with
  | [ys, ms] =>
      if allDigits ys && decide (ys.length ≤ 4) && allDigits ms && decide (ms.length ≤ 2) then
        let y := digitsToNat ys
        let m := digitsToNat ms
        if 1 ≤ y ∧ 1 ≤ m ∧ m ≤ 12 then some ⟨y, m⟩ else none
      else none
  | _ => none

/-- The astype(str) conversion before date parsing, composed with the parse:
the string rendering of a float (such as "2023.0" or "nan") or of None never
matches the %Y-%m-%d grammar, so non-string cells always coerce to NaT. -/
def parseYearMonthCell : Cell → Option Date
  | .cstr s => parseYearMonth s
  | _ => none

/-- Core of the decimal grammar: digits with an optional single dot (at
least one digit on one side). -/
def parseDecimalCore (cs : List Char) : Option ℚ :=
  match splitOnChar ('.') cs with
  | [is] => if allDigits is then some ((digitsToNat is : ℚ)) else none
  | [is, fs] =>
      if (allDigits is || is.isEmpty) && (allDigits fs || fs.isEmpty)
          && !(is.isEmpty && fs.isEmpty) then
        some ((digitsToNat is : ℚ) + (digitsToNat fs : ℚ) / ((10 : ℚ) ^ fs.length))
      else none
  | _ => none

/-- Parses a plain decimal string (optional sign, digits, optional fractional
part) to an exact rational, as pd.to_numeric accepts it; exponent notation
and special float spellings are not modelled. -/
def parseDecimal (s : String) : Option ℚ :=
  match s.toList with
  | '-' :: rest => (parseDecimalCore rest).map (fun q => -q)
  | '+' :: rest => parseDecimalCore rest
  | cs => parseDecimalCore cs

/-- Embeds pd.to_numeric(column, errors="coerce") on one cell: numbers pass
through, numeric strings parse, everything else coerces to NaN (none). -/
noncomputable def toNumeric : Cell → Option ℝ
  | .cnum x => some x
  | .cnull => none
  | .cstr s => (parseDecimal s).map (fun q => (q : ℝ))

/-- The astype(str) conversion for the municipality column.  String cells are
kept as is; for non-string cells only the fact that Python renders them as
some string is modelled, the exact rendering of floats is not (no claim
depends on it). -/
def cellStr : Cell → String
  | .cstr s => s
  | .cnum _ => "float"
  | .cnull => "None"

/-- Re-encodes an already-coerced numeric value as a column cell: a float
for a number, a missing value for NaN. -/
def numToCell : Option ℝ → Cell
  | some x => Cell.cnum x
  | none => Cell.cnull

/-- A canonical row, the adapter's output schema: date, municipality, metric
value y, and the trend_hat column cell.  The trend cell is the coerced value
(re-encoded as a float-or-missing cell) when a trend column was requested,
the raw input cell unchanged when the raw table itself has a column named
trend_hat (keep_cols tests membership of "trend_hat" in df.columns, so such
a column passes through un-coerced), and a missing value otherwise (a
padding value: the frame-level hasTrend flag records whether the column
exists at all). -/
structure CanonRow where
  date : Date
  municipality : String
  y : ℝ
  trend_hat : Cell

/-- The adapter's output: whether the trend_hat column exists, and the rows. -/
structure CanonFrame where
  hasTrend : Bool
  rows : List CanonRow

/-- A raw row after the adapter has added the derived columns date,
municipality, y and (optionally) trend_hat, before dropna. -/
structure AugRow where
  date : Option Date
  municipality : String
  y : Option ℝ
  trend_hat : Cell

/-- The column-derivation phase of the adapter: parse the year-month column
to a date, stringify the municipality column, coerce the metric to numeric,
and coerce the trend column to numeric when one was requested; when none was
requested but the raw table has a column literally named trend_hat, that
column is left as it is (it will survive keep_cols un-coerced). -/
noncomputable def addDerivedColumns (raw : RawTable) (metric_col municipality_col year_month_col : String)
    (trend_hat_col : Option String) : List AugRow :=
  raw.rows.map (fun r =>
    ⟨parseYearMonthCell (getCell r year_month_col),
     cellStr (getCell r municipality_col),
     toNumeric (getCell r metric_col),
     match trend_hat_col with
     | some tc => numToCell (toNumeric (getCell r tc))
     | none =>
         if ("trend_hat" : String) ∈ raw.cols then getCell r ("trend_hat") else Cell.cnull⟩)

/-- The dropna(subset=["date", "y"]) phase: keep exactly the rows whose date
parsed and whose metric coerced to a number; a null trend does not drop. -/
def dropMissingDateY (l : List AugRow) : List CanonRow :=
  l.filterMap (fun a =>
    match a.date, a.y with
    | some d, some yv => some ⟨d, a.municipality, yv, a.trend_hat⟩
    | _, _ => none)

/-- Embeds schema_adapter.to_canonical_monthly_df.  The three required
columns are checked first, in source order, each missing one raising a
ValueError naming it; the trend column, when explicitly named, is checked
next (in the source this check sits after the parse/coerce statements, which
can themselves never raise).  The output keeps a trend_hat column when one
was requested or when "trend_hat" is already a raw column (keep_cols tests
membership of "trend_hat" in df.columns of the copied frame).  The Python
message wraps the trend column name in single quotes, which are elided
here. -/
noncomputable def to_canonical_monthly_df (raw : RawTable) (metric_col municipality_col year_month_col : String)
    (trend_hat_col : Option String) : Except String CanonFrame :=
  if municipality_col ∉ raw.cols then
    .error ("Missing required column: " ++ municipality_col)
  else if year_month_col ∉ raw.cols then
    .error ("Missing required column: " ++ year_month_col)
  else if metric_col ∉ raw.cols then
    .error ("Missing required metric column: " ++ metric_col)
  else
    match trend_hat_col with
    | some tc =>
        if tc ∉ raw.cols then
          .error ("trend_hat_col=" ++ tc ++ " not found in dataframe.")
        else
          .ok ⟨true, dropMissingDateY (addDerivedColumns raw metric_col municipality_col year_month_col (some tc))⟩
    | none =>
        .ok ⟨decide (("trend_hat" : String) ∈ raw.cols),
          dropMissingDateY (addDerivedColumns raw metric_col municipality_col year_month_col none)⟩

/-! The monthly preparer (utils.prepare_monthly). -/

/-- A prepared monthly row: a canonical row augmented with the calendar
month and the sequential time index. -/
structure PRow where
  date : Date
  municipality : String
  y : ℝ
  trend_hat : Cell
  month : ℕ
  time_index : ℕ

/-- A prepared frame: trend column presence plus the prepared rows (the full
set, or one group's rows after grouping). -/
structure PFrame where
  hasTrend : Bool
  rows : List PRow

/-- Ascending comparison of first-of-month dates. -/
def dateLeB (a b : Date) : Bool :=
  decide (a.year < b.year) || (a.year == b.year && decide (a.month ≤ b.month))

/-- The sort key of prepare_monthly: lexicographic on (municipality, date)
when a municipality column exists, on date alone otherwise.  String order is
code-point lexicographic, matching Python.  pandas sorts multiple keys with
numpy.lexsort, which is stable; the embedding uses a stable merge sort. -/
def rowLeB (hasMuni : Bool) (a b : CanonRow) : Bool :=
  if hasMuni then
    decide (a.municipality < b.municipality)
      || (a.municipality == b.municipality && dateLeB a.date b.date)
  else dateLeB a.date b.date

/-- The minimum year over a whole row set (first_year_in_series); 0 on an
empty set, where pandas would give NaN and every time_index would be NaN. -/
def minYearOf (rows : List CanonRow) : ℕ :=
  ((rows.map (fun r => r.date.year)).min?).getD 0

/-- Derives the month and time_index columns of one row from the global
first year. -/
def augmentRow (first_year_in_series : ℕ) (r : CanonRow) : PRow :=
  ⟨r.date, r.municipality, r.y, r.trend_hat, r.date.month,
   (r.date.year - first_year_in_series) * 12 + (r.date.month - 1)⟩

/-- Embeds utils.prepare_monthly: sort the rows by (municipality, date) when
the municipality column exists (hasMuni), else by date; derive the calendar
month of each date and the sequential time index
(year - minimum year over the whole input) * 12 + (month - 1).  The
multi-key pandas sort_values uses numpy lexsort and is stable; the
single-key sort_values("date") uses the default quicksort, whose tie order
is unspecified.  The embedding refines both branches with a stable merge
sort; no theorem relies on the tie order of the hasMuni = false branch. -/
def prepare_monthly (hasMuni : Bool) (f : CanonFrame) : PFrame :=
  let sorted := f.rows.mergeSort (rowLeB hasMuni)
  ⟨f.hasTrend, sorted.map (augmentRow (minYearOf sorted))⟩

/-- Forgets the derived columns of a prepared row, recovering the canonical
row it was built from. -/
def stripPRow (r : PRow) : CanonRow :=
  ⟨r.date, r.municipality, r.y, r.trend_hat⟩

/-! Aggregation helpers shared by the five methods: the pandas mean skips
NaN entries, the pandas/numpy median sorts and takes the middle value (or the
average of the two middle values for even length). -/

/-- Mean of a list of (non-null) values; pandas yields NaN on an empty
selection. -/
noncomputable def meanF (xs : List ℝ) : F :=
  if xs.isEmpty then F.nan else F.num (xs.sum / xs.length)

/-- Mean of a column with nulls: pandas Series.mean skips NaN entries. -/
noncomputable def meanOpt (xs : List (Option ℝ)) : F :=
  meanF (xs.filterMap id)

open Classical in
/-- Ascending sort of real values, as numpy sorts before taking a median. -/
noncomputable def sortR (xs : List ℝ) : List ℝ :=
  xs.mergeSort (fun a b => decide (a ≤ b))

/-- Middle value of a sorted list: the middle element for odd length, the
average of the two middle elements for even length. -/
noncomputable def medianOfSorted (xs : List ℝ) : ℝ :=
  if xs.length % 2 = 1 then xs.getD (xs.length / 2) 0
  else (xs.getD (xs.length / 2 - 1) 0 + xs.getD (xs.length / 2) 0) / 2

/-- Median of a list of (non-null) values; NaN on an empty selection. -/
noncomputable def medianF (xs : List ℝ) : F :=
  if xs.isEmpty then F.nan else F.num (medianOfSorted (sortR xs))

/-- np.nanmedian over a float array: the median of the non-NaN entries, NaN
when all entries are NaN. -/
noncomputable def nanmedianF (xs : List F) : F :=
  medianF (xs.filterMap (fun v => match v with | .num x => some x | _ => none))

/-- The rows of one calendar month (groupby("month") selection). -/
def monthRows (rows : List PRow) (m : ℕ) : List PRow :=
  rows.filter (fun r => r.month == m)

/-! Method A: simple_averages.py. -/

/-- The per-calendar-month means of y divided by the overall mean, times 100,
reindexed over months 1..12 (months absent from the data give NaN). -/
noncomputable def monthMeansOver (rows : List PRow) (overall_mean : F) : List F :=
  (List.range 12).map (fun i =>
    fmulc 100 (fdivF (meanF ((monthRows rows (i + 1)).map (fun r => r.y))) overall_mean))

/-- Embeds simple_averages: overall mean of y, per-calendar-month mean of y
reindexed over months 1..12, seasonal index
(month mean / overall mean) * 100, scaled to sum 1200. -/
noncomputable def simple_averages (g : PFrame) : List F :=
  scale_base100_to_sum1200 (monthMeansOver g.rows (meanF (g.rows.map (fun r => r.y))))

/-! Method B: ratio_to_trend.py. -/

/-- Closed form of the ordinary least squares fit of
log(clip(y, 1e-9)) = intercept + slope * time_index, the unique solution
np.linalg.lstsq returns when the design matrix has full rank (at least two
distinct time indexes); the degenerate rank-deficient branch (all time
indexes equal), unreachable for any multi-month series, is given the
minimum-norm-style fallback slope 0. -/
noncomputable def olsLogLinear (rows : List PRow) : ℝ × ℝ :=
  let ts : List ℝ := rows.map (fun r => (r.time_index : ℝ))
  let ls : List ℝ := rows.map (fun r => Real.log (max r.y ((1 : ℝ) / 1000000000)))
  let n : ℝ := rows.length
  let sT := ts.sum
  let sL := ls.sum
  let sTT := (ts.map (fun t => t * t)).sum
  let sTL := (List.zipWith (fun t l => t * l) ts ls).sum
  let d := n * sTT - sT * sT
  if d = 0 then ((if rows.length = 0 then 0 else sL / n), 0)
  else
    let slope := (n * sTL - sT * sL) / d
    ((sL - slope * sT) / n, slope)

/-- Embeds _fallback_trend_hat_log_linear: the fitted exponential trend
exp(intercept + slope * time_index) per row. -/
noncomputable def fallbackTrendHat (rows : List PRow) : List ℝ :=
  let ab := olsLogLinear rows
  rows.map (fun r => Real.exp (ab.1 + ab.2 * (r.time_index : ℝ)))

open Classical in
/-- The per-row ratio y / trend with infinities replaced by NaN: none when
the trend value is null or zero (a float division by zero yields inf or NaN,
both of which the source converts to null). -/
noncomputable def ratioOverTrend (yv : ℝ) (trend : Option ℝ) : Option ℝ :=
  match trend with
  | none => none
  | some t => if t = 0 then none else some (yv / t)

/-- The reusable reindexing idiom shared by the two ratio methods: pair each
row with its per-row ratio, group by calendar month, take the NaN-skipping
mean per month over 1..12, and convert to base 100. -/
noncomputable def monthMeanOfRatios (rows : List PRow) (ratios : List (Option ℝ)) : List F :=
  (List.range 12).map (fun i =>
    fmulc 100 (meanOpt
      (((rows.zip ratios).filter (fun p => p.1.month == i + 1)).map (fun p => p.2))))

/-- The per-row ratios of ratio_to_trend: against the trend_hat column when
the frame has one (the source re-coerces that column with pd.to_numeric at
this point, which also coerces a passed-through raw column), else against
the log-linear fallback trend. -/
noncomputable def trendRatios (g : PFrame) : List (Option ℝ) :=
  if g.hasTrend then
    g.rows.map (fun r => ratioOverTrend r.y (toNumeric r.trend_hat))
  else
    List.zipWith (fun (r : PRow) (t : ℝ) => ratioOverTrend r.y (some t))
      g.rows (fallbackTrendHat g.rows)

/-- Embeds ratio_to_trend: uses the supplied trend_hat column when the frame
has one, else the log-linear fallback; ratio per row, mean ratio per calendar
month reindexed over 1..12, times 100, scaled. -/
noncomputable def ratio_to_trend (g : PFrame) : List F :=
  scale_base100_to_sum1200 (monthMeanOfRatios g.rows (trendRatios g))

/-! Method C: ratio_to_moving_average.py. -/

/-- Trailing rolling mean of window w ending at position t (pandas
rolling(window=w).mean() with the default min_periods: null until a full
window is available). -/
noncomputable def rollingMeanLastW (ys : List ℝ) (w t : ℕ) : Option ℝ :=
  if w ≤ t + 1 ∧ t < ys.length then some (((ys.drop (t + 1 - w)).take w).sum / (w : ℝ))
  else none

/-- Embeds utils.centered_moving_average_even_window for an even window: the
trailing rolling mean averaged with its one-step-forward shift.  The source
raises a ValueError on odd windows; its sole caller passes window = 12, so
the guard is statically satisfied and not modelled. -/
noncomputable def centered_moving_average_even_window (ys : List ℝ) (w : ℕ) : List (Option ℝ) :=
  (List.range ys.length).map (fun t =>
    match rollingMeanLastW ys w t, rollingMeanLastW ys w (t + 1) with
    | some a, some b => some ((a + b) / 2)
    | _, _ => none)

/-- The defensive re-sort inside ratio_to_moving_average: prepared rows carry
a date column, so the first branch of the sort-key priority (date, then
time_index, then year/month, else ValueError) always applies.  pandas sorts
a single key with quicksort, whose tie order is unspecified; the embedding
uses a stable sort, which agrees whenever dates within the series are
distinct. -/
def sortByDate (rows : List PRow) : List PRow :=
  rows.mergeSort (fun a b => dateLeB a.date b.date)

open Classical in
/-- The per-row ratios observed / centered moving average, with infinities
(zero trend) nulled and positions without a moving average null. -/
noncomputable def rtmaRatios (rows : List PRow) : List (Option ℝ) :=
  let ys := rows.map (fun r => r.y)
  let cma := centered_moving_average_even_window ys 12
  (List.range rows.length).map (fun t =>
    match cma.getD t none with
    | some c => if c = 0 then none else some (ys.getD t 0 / c)
    | none => none)

/-- Embeds ratio_to_moving_average: re-sort by date, 12-month centered moving
average as trend, ratio observed/trend with infinities nulled, keep only rows
where the moving average exists, mean ratio per calendar month reindexed over
1..12, times 100, scaled. -/
noncomputable def ratio_to_moving_average (g : PFrame) : List F :=
  scale_base100_to_sum1200
    (monthMeanOfRatios (sortByDate g.rows) (rtmaRatios (sortByDate g.rows)))

/-! Method D: link_relatives.py. -/

open Classical in
/-- The link_relative_percent column: position 0 is null (no previous month);
position t holds (y_t / y_(t-1)) * 100 when the previous value is nonzero,
null otherwise (the valid_division_mask). -/
noncomputable def linkRelativesColumn (ys : List ℝ) : List (Option ℝ) :=
  (List.range ys.length).map (fun i =>
    if i = 0 then none
    else
      let prev := ys.getD (i - 1) 0
      if prev = 0 then none else some (ys.getD i 0 / prev * 100))

/-- The average link relative per calendar month, reindexed over 1..12:
pandas groupby mean, skipping the null link relatives. -/
noncomputable def avgLinkRelByMonth (g : PFrame) : List F :=
  let lrs := linkRelativesColumn (g.rows.map (fun r => r.y))
  (List.range 12).map (fun i =>
    meanOpt (((g.rows.zip lrs).filter (fun p => p.1.month == i + 1)).map (fun p => p.2)))

open Classical in
/-- One step of the chaining loop: a null or exactly-zero average link
relative makes the month's chained value null, otherwise the chained value is
the previous chained value times (average link relative / 100). -/
noncomputable def chainStep (avg prev : F) : F :=
  match avg with
  | .nan => .nan
  | .num x => if x = 0 then .nan else fmulF prev (.num (x / 100))
  | .inf s => fmulF prev (fdivF (.inf s) (.num 100))

/-- The chained seasonal index as a function of the month position (0 =
January): January is set to 100 unconditionally before the loop, each later
position is one chainStep from its predecessor. -/
noncomputable def chainFrom (avgs : List F) : ℕ → F
  | 0 => F.num 100
  | m + 1 => chainStep (avgs.getD (m + 1) F.nan) (chainFrom avgs m)

/-- The chained seasonal index array of link_relatives (positions 0..11). -/
noncomputable def chained_seasonal_index (avgs : List F) : List F :=
  (List.range 12).map (chainFrom avgs)

/-- Embeds link_relatives: link relative percent column, average per calendar
month, chain starting at 100 for January, scaled. -/
noncomputable def link_relatives (g : PFrame) : List F :=
  scale_base100_to_sum1200 (chained_seasonal_index (avgLinkRelByMonth g))

/-! Method E: ratio_to_median.py. -/

/-- The per-calendar-month medians of y, reindexed over months 1..12. -/
noncomputable def monthlyMedians (rows : List PRow) : List F :=
  (List.range 12).map (fun i =>
    medianF ((monthRows rows (i + 1)).map (fun r => r.y)))

open Classical in
/-- The base-100 conversion branch of ratio_to_median: when the overall
nanmedian of the monthly medians is non-finite or exactly zero, the raw
monthly medians are kept as the fallback, otherwise each becomes
(month median / overall median) * 100. -/
noncomputable def medianBase100 (monthly_medians : List F) : F → List F
  | .num o =>
      if o = 0 then monthly_medians
      else monthly_medians.map (fun x => fmulc 100 (fdivF x (.num o)))
  | _ => monthly_medians

/-- Embeds ratio_to_median: per-calendar-month median of y reindexed over
1..12, overall nanmedian of the twelve monthly medians; when the overall
value is non-finite or exactly zero the raw monthly medians are kept,
otherwise the index is (month median / overall median) * 100; scaled. -/
noncomputable def ratio_to_median (g : PFrame) : List F :=
  scale_base100_to_sum1200
    (medianBase100 (monthlyMedians g.rows) (nanmedianF (monthlyMedians g.rows)))

/-! The run orchestrator (all_seasonality_indices.compute_seasonality_run),
restricted to its computational core: plot rendering, CSV export and the
timestamped run directory are external side effects with no bearing on the
returned indices. -/

/-- Embeds utils.json_safe on one value: NaN and infinities become null. -/
def json_safe (v : F) : Option ℝ :=
  match v with
  | .num x => some x
  | _ => none

/-- Embeds utils.json_safe_list. -/
def json_safe_list (xs : List F) : List (Option ℝ) :=
  xs.map json_safe

/-- One group's five sanitized index arrays, keyed as in the result record. -/
structure SeasonalityResult where
  A_simple_averages : List (Option ℝ)
  B_ratio_to_trend : List (Option ℝ)
  C_ratio_to_moving_average : List (Option ℝ)
  D_link_relatives : List (Option ℝ)
  E_ratio_to_median : List (Option ℝ)

/-- Runs the five methods on one group and sanitizes the arrays. -/
noncomputable def method_results (g : PFrame) : SeasonalityResult :=
  ⟨json_safe_list (simple_averages g),
   json_safe_list (ratio_to_trend g),
   json_safe_list (ratio_to_moving_average g),
   json_safe_list (link_relatives g),
   json_safe_list (ratio_to_median g)⟩

/-- The distinct municipality values in sorted order, as pandas
groupby("municipality") iterates them (sort=True is the default). -/
def municipalitiesOf (rows : List PRow) : List String :=
  ((rows.map (fun r => r.municipality)).eraseDups).mergeSort (fun a b => decide (a ≤ b))

/-- The group list of the orchestrator: "OVERALL" over the full prepared
frame, then one group per municipality with its rows in original order. -/
def groupsOf (pf : PFrame) : List (String × PFrame) :=
  ("OVERALL", pf) ::
    (municipalitiesOf pf.rows).map (fun m =>
      (m, ⟨pf.hasTrend, pf.rows.filter (fun r => r.municipality == m)⟩))

/-- Embeds the computational core of compute_seasonality_run: canonicalize,
prepare once over the full dataset, then run all five methods on "OVERALL"
and on each municipality group, returning the sanitized per-group results. -/
noncomputable def compute_seasonality_run (raw : RawTable) (metric_col municipality_col year_month_col : String)
    (trend_hat_col : Option String) : Except String (List (String × SeasonalityResult)) :=
  (to_canonical_monthly_df raw metric_col municipality_col year_month_col trend_hat_col).map
    (fun cf =>
      let pf := prepare_monthly true cf
      (groupsOf pf).map (fun g => (g.1, method_results g.2)))

/-! Specification-side predicates, stated in the spec's vocabulary, to be
proved of the embedded code. -/

/-- The behaviour the spec ascribes to the scaling utility on a 12-entry
array: passthrough when the NaN-ignoring sum is non-finite or zero, otherwise
every finite entry multiplied by 1200 / sum with null positions preserved. -/
def ScaleSpec (xs : List F) : Prop :=
  ((∀ t : ℝ, nansumF xs = F.num t → t = 0) → scale_base100_to_sum1200 xs = xs) ∧
  (∀ t : ℝ, nansumF xs = F.num t → t ≠ 0 →
    (scale_base100_to_sum1200 xs).length = xs.length ∧
    ∀ i : ℕ, i < xs.length →
      (xs.getD i F.nan = F.nan → (scale_base100_to_sum1200 xs).getD i F.nan = F.nan) ∧
      (∀ x : ℝ, xs.getD i F.nan = F.num x →
        (scale_base100_to_sum1200 xs).getD i F.nan = F.num (x * (1200 / t))))

/-- Well-formedness of one group's prepared series, with no missing calendar
months: nonempty, strictly positive metric values, calendar months in range
with every month 1..12 represented, and, when a trend column is present,
a positive trend value on every row. -/
def WellFormedNoMissingMonths (g : PFrame) : Prop :=
  g.rows ≠ [] ∧
  (∀ r ∈ g.rows, 0 < r.y) ∧
  (∀ r ∈ g.rows, 1 ≤ r.month ∧ r.month ≤ 12) ∧
  (∀ m, 1 ≤ m → m ≤ 12 → ∃ r ∈ g.rows, r.month = m) ∧
  (g.hasTrend = true → ∀ r ∈ g.rows, ∃ t, toNumeric r.trend_hat = some t ∧ 0 < t)

/-- Output contract of one method as the spec states it: 12 entries whose
non-null entries sum to 1200. -/
def Sum1200Output (out : List F) : Prop :=
  out.length = 12 ∧ nnSum out = 1200

/-! Concrete inputs used by counterexamples and witnesses. -/

/-- One raw input row of the end-to-end scenario: municipality "A", the given
year-month, metric value 10. -/
def rawRowA (ym : String) : List (String × Cell) :=
  [("municipality", Cell.cstr ("A")), ("year_month", Cell.cstr ym), ("m", Cell.cnum 10)]

/-- The end-to-end scenario input: municipality "A", the metric constant at
10 for all 12 months of 2023. -/
def rawConstant : RawTable :=
  ⟨["municipality", "year_month", "m"],
   [rawRowA ("2023-01"), rawRowA ("2023-02"), rawRowA ("2023-03"), rawRowA ("2023-04"),
    rawRowA ("2023-05"), rawRowA ("2023-06"), rawRowA ("2023-07"), rawRowA ("2023-08"),
    rawRowA ("2023-09"), rawRowA ("2023-10"), rawRowA ("2023-11"), rawRowA ("2023-12")]⟩

/-- The canonical row the adapter derives from month m of the scenario. -/
def cRowConst (m : ℕ) : CanonRow := ⟨⟨2023, m⟩, "A", 10, Cell.cnull⟩

/-- The canonical frame of the scenario. -/
def cfConst : CanonFrame :=
  ⟨false,
   [cRowConst 1, cRowConst 2, cRowConst 3, cRowConst 4, cRowConst 5, cRowConst 6,
    cRowConst 7, cRowConst 8, cRowConst 9, cRowConst 10, cRowConst 11, cRowConst 12]⟩

/-- The prepared row of month m of the scenario. -/
def pRowConst (m : ℕ) : PRow := ⟨⟨2023, m⟩, "A", 10, Cell.cnull, m, m - 1⟩

/-- The prepared frame of the scenario: twelve consecutive months of 2023,
constant metric 10, single municipality "A". -/
def pfConst : PFrame :=
  ⟨false,
   [pRowConst 1, pRowConst 2, pRowConst 3, pRowConst 4, pRowConst 5, pRowConst 6,
    pRowConst 7, pRowConst 8, pRowConst 9, pRowConst 10, pRowConst 11, pRowConst 12]⟩

/-- Thirteen consecutive constant months (2023-01 .. 2024-01): the shortest
series on which a centered 12-month moving average exists. -/
def pf13 : PFrame :=
  ⟨false,
   [pRowConst 1, pRowConst 2, pRowConst 3, pRowConst 4, pRowConst 5, pRowConst 6,
    pRowConst 7, pRowConst 8, pRowConst 9, pRowConst 10, pRowConst 11, pRowConst 12,
    ⟨⟨2024, 1⟩, "A", 10, Cell.cnull, 1, 12⟩]⟩

/-- A three-month series, shorter than a year. -/
def pf3 : PFrame := ⟨false, [pRowConst 1, pRowConst 2, pRowConst 3]⟩

/-- A two-month series with a doubling metric (January 10, February 20). -/
def pf2 : PFrame :=
  ⟨false, [⟨⟨2023, 1⟩, "A", 10, Cell.cnull, 1, 0⟩, ⟨⟨2023, 2⟩, "A", 20, Cell.cnull, 2, 1⟩]⟩

/-- A raw table without the municipality column. -/
def rawNoMuni : RawTable :=
  ⟨["year_month", "m"], [[("year_month", Cell.cstr ("2023-01")), ("m", Cell.cnum 10)]]⟩

/-- A raw table with one clean row, one row whose metric is the string "abc",
and one row whose year-month does not parse. -/
def rawMixed : RawTable :=
  ⟨["municipality", "year_month", "m"],
   [[("municipality", Cell.cstr ("A")), ("year_month", Cell.cstr ("2023-01")), ("m", Cell.cnum 10)],
    [("municipality", Cell.cstr ("A")), ("year_month", Cell.cstr ("2023-02")), ("m", Cell.cstr ("abc"))],
    [("municipality", Cell.cstr ("A")), ("year_month", Cell.cstr ("not-a-month")), ("m", Cell.cnum 7)]]⟩

/-- A raw table that already has a column literally named trend_hat, with no
trend column requested. -/
def rawTrendThrough : RawTable :=
  ⟨["municipality", "year_month", "m", "trend_hat"],
   [[("municipality", Cell.cstr ("A")), ("year_month", Cell.cstr ("2023-01")),
     ("m", Cell.cnum 10), ("trend_hat", Cell.cstr ("x"))]]⟩

/-- An unsorted two-group canonical frame spanning two years. -/
def cfTwoGroups : CanonFrame :=
  ⟨false, [⟨⟨2024, 3⟩, "B", 5, Cell.cnull⟩, ⟨⟨2023, 7⟩, "A", 3, Cell.cnull⟩]⟩

/-- A flat index array: twelve entries of 100. -/
def flat100 : List (Option ℝ) := List.replicate 12 (some (100 : ℝ))

/-- An all-null index array. -/
def allNull : List (Option ℝ) := List.replicate 12 (none : Option ℝ)

/-- The group result the scenario actually produces: methods A, B, D, E flat
at 100, method C (ratio to moving average) all null. -/
def constResult : SeasonalityResult := ⟨flat100, flat100, allNull, flat100, flat100⟩

/-- Twelve finite entries of 100, the input to the scaling witnesses. -/
def xs100 : List F :=
  [F.num 100, F.num 100, F.num 100, F.num 100, F.num 100, F.num 100,
   F.num 100, F.num 100, F.num 100, F.num 100, F.num 100, F.num 100]

/-- Claim C1 as stated: on the constant scenario the run succeeds, the
"OVERALL" and "A" group results are identical, and all five index arrays of
the "A" group are flat at 100 with no nulls. -/
def C1Statement : Prop :=
  ∃ rs, compute_seasonality_run rawConstant ("m") ("municipality") ("year_month") none = .ok rs ∧
    ∃ rOver rA, ("OVERALL", rOver) ∈ rs ∧ ("A", rA) ∈ rs ∧ rOver = rA ∧
      rA.A_simple_averages = flat100 ∧ rA.B_ratio_to_trend = flat100 ∧
      rA.C_ratio_to_moving_average = flat100 ∧ rA.D_link_relatives = flat100 ∧
      rA.E_ratio_to_median = flat100

/-- Shape predicate on a ratio column: every entry is null or positive. -/
def OptShape (l : List (Option ℝ)) : Prop :=
  ∀ o ∈ l, o = none ∨ ∃ v, o = some v ∧ 0 < v

/-! Theorems.  General lemmas first, then one theorem per claim with its
witness or counterexample. -/

theorem getD_map_range {α : Type} (n : ℕ) (f : ℕ → α) (i : ℕ) (d : α) (h : i < n) :
    ((List.range n).map f).getD i d = f i := by
  rw [List.getD_eq_getElem _ _ (by simpa using h)]
  simp

theorem meanOpt_all_none (l : List (Option ℝ)) (h : ∀ o ∈ l, o = none) :
    meanOpt l = F.nan := by
  have hnil : l.filterMap id = [] := List.filterMap_eq_nil_iff.2 (fun a ha => h a ha)
  unfold meanOpt
  rw [hnil]
  unfold meanF
  simp

theorem rollingMeanLastW_cond (ys : List ℝ) (w t : ℕ) (v : ℝ)
    (h : rollingMeanLastW ys w t = some v) : w ≤ t + 1 ∧ t < ys.length := by
  unfold rollingMeanLastW at h
  by_cases hc : w ≤ t + 1 ∧ t < ys.length
  · exact hc
  · rw [if_neg hc] at h
    exact absurd h (by simp)

/-- A series shorter than 13 entries has no centered 12-month moving average
at any position: the trailing window needs 12 entries and the forward shift
needs one more. -/
theorem cma12_getD_none (ys : List ℝ) (h : ys.length < 13) (t : ℕ) :
    (centered_moving_average_even_window ys 12).getD t none = none := by
  unfold centered_moving_average_even_window
  by_cases ht : t < ys.length
  · rw [getD_map_range ys.length _ t none ht]
    rcases h1 : rollingMeanLastW ys 12 t with _ | a
    · rfl
    · rcases h2 : rollingMeanLastW ys 12 (t + 1) with _ | b
      · rfl
      · exfalso
        have c1 := rollingMeanLastW_cond ys 12 t a h1
        have c2 := rollingMeanLastW_cond ys 12 (t + 1) b h2
        omega
  · rw [List.getD_eq_default]
    simpa using Nat.le_of_not_lt ht

theorem rtmaRatios_all_none (rows : List PRow) (h : rows.length < 13) :
    ∀ o ∈ rtmaRatios rows, o = none := by
  intro o ho
  unfold rtmaRatios at ho
  rcases List.mem_map.1 ho with ⟨t, ht, rfl⟩
  rw [cma12_getD_none _ (by simpa using h) t]

theorem monthMean_all_nan (rows : List PRow) (ratios : List (Option ℝ))
    (h : ∀ o ∈ ratios, o = none) :
    monthMeanOfRatios rows ratios = List.replicate 12 F.nan := by
  unfold monthMeanOfRatios
  refine List.eq_replicate_iff.2 ⟨by simp, ?_⟩
  intro b hb
  rcases List.mem_map.1 hb with ⟨i, hi, rfl⟩
  have hmean : meanOpt
      (((rows.zip ratios).filter (fun p => p.1.month == i + 1)).map (fun p => p.2)) = F.nan := by
    apply meanOpt_all_none
    intro o ho
    rcases List.mem_map.1 ho with ⟨p, hp, rfl⟩
    rcases p with ⟨r, o⟩
    exact h o (List.of_mem_zip (List.mem_filter.1 hp).1).2
  rw [hmean]
  rfl

theorem nansumF_replicate_nan (n : ℕ) : nansumF (List.replicate n F.nan) = F.num 0 := by
  have h : NumOrNan (List.replicate n F.nan) := by
    intro x hx
    rw [List.eq_of_mem_replicate hx]
    exact Or.inl rfl
  rw [nansumF_eq_nnSum _ h]
  have hz : nnSum (List.replicate n F.nan) = 0 := by
    unfold nnSum
    rw [List.filterMap_eq_nil_iff.2 (fun a ha => by rw [List.eq_of_mem_replicate ha])]
    simp
  rw [hz]

theorem scale_replicate_nan :
    scale_base100_to_sum1200 (List.replicate 12 F.nan) = List.replicate 12 F.nan := by
  unfold scale_base100_to_sum1200
  rw [nansumF_replicate_nan]
  simp only [scaleWithTotal]
  simp

/-- On any series of fewer than 13 rows, ratio_to_moving_average yields the
all-null 12-entry array: no position has a centered moving average. -/
theorem rtma_all_nan_of_short (g : PFrame) (h : g.rows.length < 13) :
    ratio_to_moving_average g = List.replicate 12 F.nan := by
  unfold ratio_to_moving_average
  have hlen : (sortByDate g.rows).length < 13 := by
    unfold sortByDate
    rw [List.length_mergeSort]
    exact h
  rw [monthMean_all_nan _ _ (rtmaRatios_all_none _ hlen)]
  exact scale_replicate_nan

/-- Claim C3: for every per-group input series containing fewer than 12 rows,
ratio_to_moving_average returns an all-null 12-entry output (its embedding is
total, so no error is raised; the only raising branch of the source, the
missing-sort-key configuration error, is unreachable because prepared rows
always carry a date column). -/
theorem C3_short_series_all_null (g : PFrame) (h : g.rows.length < 12) :
    ratio_to_moving_average g = List.replicate 12 F.nan :=
  rtma_all_nan_of_short g (by omega)

/-- Witness for C3 at a concrete three-month series. -/
theorem C3_witness :
    pf3.rows.length < 12 ∧ ratio_to_moving_average pf3 = List.replicate 12 F.nan :=
  ⟨by simp [pf3], C3_short_series_all_null pf3 (by simp [pf3])⟩

/-- Claim C4: the scaling utility passes a 12-entry array through unchanged
when its NaN-ignoring sum is non-finite or exactly zero, and otherwise
multiplies every finite entry by 1200 / sum, preserving null positions. -/
theorem C4_scale_spec (xs : List F) (h12 : xs.length = 12) : ScaleSpec xs := by
  constructor
  · intro hdeg
    unfold scale_base100_to_sum1200
    cases hs : nansumF xs with
    | num t =>
      have ht := hdeg t hs
      subst ht
      simp only [scaleWithTotal]
      simp
    | inf s => rfl
    | nan => rfl
  · intro t ht hne
    have hscale : scale_base100_to_sum1200 xs = xs.map (fmulc (1200 / t)) := by
      unfold scale_base100_to_sum1200
      rw [ht]
      simp only [scaleWithTotal]
      rw [if_neg hne]
    refine ⟨by rw [hscale]; simp, ?_⟩
    intro i hi
    constructor
    · exact scale_getD_nan xs i
    · intro x hx
      rw [hscale]
      rw [List.getD_eq_getElem _ _ hi] at hx
      rw [List.getD_eq_getElem _ _ (by simpa using hi)]
      simp only [List.getElem_map, hx]
      rfl

/-- Witness for C4 at the concrete all-100 array. -/
theorem C4_witness : xs100.length = 12 ∧ ScaleSpec xs100 :=
  ⟨by simp [xs100], C4_scale_spec xs100 (by simp [xs100])⟩

/-- Claim C5: the scaling utility is idempotent up to its degenerate
fallback: an array whose non-null entries already sum to 1200 is returned
unchanged (exactly, in the exact-real model). -/
theorem C5_scale_idempotent (xs : List F) (h12 : xs.length = 12)
    (hsum : nansumF xs = F.num 1200) :
    scale_base100_to_sum1200 xs = xs :=
  scale_eq_self_of_nansum_1200 xs hsum

/-- Witness for C5 at the concrete all-100 array. -/
theorem C5_witness :
    xs100.length = 12 ∧ nansumF xs100 = F.num 1200 ∧
      scale_base100_to_sum1200 xs100 = xs100 := by
  have hsum : nansumF xs100 = F.num 1200 := by
    unfold xs100 nansumF
    simp only [List.foldl_cons, List.foldl_nil, denan, faddF]
    norm_num
  exact ⟨by simp [xs100], hsum, C5_scale_idempotent xs100 (by simp [xs100]) hsum⟩

/-- A chain step from a NaN predecessor is NaN whatever the month's average
link relative is: the broken chain never recovers. -/
theorem chainStep_nan_prev (avg : F) : chainStep avg F.nan = F.nan := by
  cases avg with
  | nan => rfl
  | num x =>
    simp only [chainStep]
    by_cases hx : x = 0
    · rw [if_pos hx]
    · rw [if_neg hx]
      rfl
  | inf s =>
    simp only [chainStep, fmulF]

theorem chainFrom_nan_propagates (avgs : List F) (k m : ℕ) (hkm : k ≤ m)
    (h : chainFrom avgs k = F.nan) : chainFrom avgs m = F.nan := by
  obtain ⟨j, rfl⟩ : ∃ j, m = k + j := ⟨m - k, by omega⟩
  clear hkm
  induction j with
  | zero => exact h
  | succ j ih =>
    have : k + (j + 1) = (k + j) + 1 := by omega
    rw [this]
    show chainStep (avgs.getD (k + j + 1) F.nan) (chainFrom avgs (k + j)) = F.nan
    rw [ih]
    exact chainStep_nan_prev _

/-- Claim C9: in link_relatives, the chained seasonal index starts at 100 for
January; a month whose average link relative is null or exactly zero gets a
null chained value; a month with a nonzero finite average gets the previous
chained value times (average / 100); and a null chained value propagates to
every later month of the chain. -/
theorem C9_link_chain (g : PFrame) :
    chainFrom (avgLinkRelByMonth g) 0 = F.num 100 ∧
    (∀ m, 1 ≤ m → m ≤ 11 →
      (((avgLinkRelByMonth g).getD m F.nan = F.nan ∨
          (avgLinkRelByMonth g).getD m F.nan = F.num 0) →
        chainFrom (avgLinkRelByMonth g) m = F.nan) ∧
      (∀ x : ℝ, (avgLinkRelByMonth g).getD m F.nan = F.num x → x ≠ 0 →
        chainFrom (avgLinkRelByMonth g) m =
          fmulF (chainFrom (avgLinkRelByMonth g) (m - 1)) (F.num (x / 100)))) ∧
    (∀ k m, k ≤ m → chainFrom (avgLinkRelByMonth g) k = F.nan →
      chainFrom (avgLinkRelByMonth g) m = F.nan) := by
  refine ⟨rfl, ?_, chainFrom_nan_propagates (avgLinkRelByMonth g)⟩
  intro m h1 h11
  obtain ⟨m', rfl⟩ : ∃ m', m = m' + 1 := ⟨m - 1, by omega⟩
  constructor
  · intro havg
    show chainStep ((avgLinkRelByMonth g).getD (m' + 1) F.nan) _ = F.nan
    rcases havg with h | h
    · rw [h]
      rfl
    · rw [h]
      simp only [chainStep]
      simp
  · intro x hx hxne
    show chainStep ((avgLinkRelByMonth g).getD (m' + 1) F.nan) _ = _
    rw [hx]
    simp only [chainStep]
    rw [if_neg hxne]
    norm_num

/-- Witness for C9 at the concrete two-month doubling series: the chain
starts at 100, February is 100 * (200 / 100), March (no data, null average)
breaks to null, and the null persists through December. -/
theorem C9_witness :
    chainFrom (avgLinkRelByMonth pf2) 0 = F.num 100 ∧
    ((avgLinkRelByMonth pf2).getD 2 F.nan = F.nan →
      chainFrom (avgLinkRelByMonth pf2) 2 = F.nan) ∧
    (chainFrom (avgLinkRelByMonth pf2) 2 = F.nan →
      chainFrom (avgLinkRelByMonth pf2) 11 = F.nan) := by
  have h := C9_link_chain pf2
  exact ⟨h.1, fun hn => (h.2.1 2 (by norm_num) (by norm_num)).1 (Or.inl hn),
    fun hn => h.2.2 2 11 (by norm_num) hn⟩

/-- Any month list built from rows lacking calendar month m has a NaN mean
entry at position m - 1 in the month-mean-of-ratios reindexing. -/
theorem monthMeanOfRatios_getD_nan (rows : List PRow) (ratios : List (Option ℝ))
    (m : ℕ) (h1 : 1 ≤ m) (h2 : m ≤ 12) (habs : ∀ r ∈ rows, r.month ≠ m) :
    (monthMeanOfRatios rows ratios).getD (m - 1) F.nan = F.nan := by
  unfold monthMeanOfRatios
  rw [getD_map_range 12 _ (m - 1) _ (by omega)]
  have hm : m - 1 + 1 = m := by omega
  rw [hm]
  have hfil : (rows.zip ratios).filter (fun p => p.1.month == m) = [] := by
    refine List.filter_eq_nil_iff.2 ?_
    rintro ⟨r, o⟩ hp
    simp only [beq_iff_eq]
    exact habs r (List.of_mem_zip hp).1
  rw [hfil]
  rw [meanOpt_all_none _ (by simp)]
  rfl

/-- The empty filter for an absent month. -/
theorem monthRows_nil (rows : List PRow) (m : ℕ) (habs : ∀ r ∈ rows, r.month ≠ m) :
    monthRows rows m = [] := by
  refine List.filter_eq_nil_iff.2 ?_
  intro r hr
  simp only [beq_iff_eq]
  exact habs r hr

/-- Claim C10: link_relatives sets the pre-scaling chained value for January
to exactly 100 unconditionally, even when the series has no January row at
all, whereas in each of the other four methods a calendar month absent from
the data yields a null entry. -/
theorem C10_january_unconditional (g : PFrame) (m : ℕ) (h1 : 1 ≤ m) (h2 : m ≤ 12)
    (habs : ∀ r ∈ g.rows, r.month ≠ m) :
    chainFrom (avgLinkRelByMonth g) 0 = F.num 100 ∧
    (simple_averages g).getD (m - 1) F.nan = F.nan ∧
    (ratio_to_trend g).getD (m - 1) F.nan = F.nan ∧
    (ratio_to_moving_average g).getD (m - 1) F.nan = F.nan ∧
    (ratio_to_median g).getD (m - 1) F.nan = F.nan := by
  refine ⟨rfl, ?_, ?_, ?_, ?_⟩
  · unfold simple_averages
    apply scale_getD_nan
    unfold monthMeansOver
    rw [getD_map_range 12 _ (m - 1) _ (by omega)]
    have hm : m - 1 + 1 = m := by omega
    rw [hm, monthRows_nil g.rows m habs]
    simp [meanF, fdivF, fmulc]
  · unfold ratio_to_trend
    apply scale_getD_nan
    exact monthMeanOfRatios_getD_nan _ _ m h1 h2 habs
  · unfold ratio_to_moving_average
    apply scale_getD_nan
    refine monthMeanOfRatios_getD_nan _ _ m h1 h2 ?_
    intro r hr
    exact habs r (by
      have : r ∈ sortByDate g.rows := hr
      unfold sortByDate at this
      exact List.mem_mergeSort.1 this)
  · unfold ratio_to_median
    apply scale_getD_nan
    have hmed : (monthlyMedians g.rows).getD (m - 1) F.nan = F.nan := by
      unfold monthlyMedians
      rw [getD_map_range 12 _ (m - 1) _ (by omega)]
      have hm : m - 1 + 1 = m := by omega
      rw [hm, monthRows_nil g.rows m habs]
      rfl
    cases ho : nanmedianF (monthlyMedians g.rows) with
    | num o =>
      simp only [medianBase100]
      by_cases hoz : o = 0
      · rw [if_pos hoz]
        exact hmed
      · rw [if_neg hoz]
        have hlen : m - 1 < (monthlyMedians g.rows).length := by
          unfold monthlyMedians
          simp
          omega
        rw [List.getD_eq_getElem _ _ hlen] at hmed
        rw [List.getD_eq_getElem _ _ (by simpa using hlen)]
        simp only [List.getElem_map, hmed]
        rfl
    | inf s => exact hmed
    | nan => exact hmed

/-- Witness for C10 at the concrete two-month series, which has no May row:
the January chain value is 100 while all four other methods are null at
May. -/
theorem C10_witness :
    chainFrom (avgLinkRelByMonth pf2) 0 = F.num 100 ∧
    (simple_averages pf2).getD 4 F.nan = F.nan ∧
    (ratio_to_trend pf2).getD 4 F.nan = F.nan ∧
    (ratio_to_moving_average pf2).getD 4 F.nan = F.nan ∧
    (ratio_to_median pf2).getD 4 F.nan = F.nan := by
  have habs : ∀ r ∈ pf2.rows, r.month ≠ 5 := by
    intro r hr
    rcases List.mem_cons.1 hr with rfl | hr2
    · norm_num [pf2]
    · rcases List.mem_cons.1 hr2 with rfl | hr3
      · norm_num [pf2]
      · simp [pf2] at hr3
  exact C10_january_unconditional pf2 5 (by norm_num) (by norm_num) habs

/-! Positivity and shape lemmas feeding the sum-1200 contract of each
method. -/

theorem fmulc_nan (c : ℝ) : fmulc c F.nan = F.nan := rfl

theorem fmulc_num (c a : ℝ) : fmulc c (F.num a) = F.num (a * c) := rfl

theorem fdivF_nan_left (x : F) : fdivF F.nan x = F.nan := by
  simp [fdivF]

theorem fdivF_num_num (a b : ℝ) (hb : b ≠ 0) : fdivF (F.num a) (F.num b) = F.num (a / b) := by
  simp [fdivF, hb]

theorem meanF_pos (xs : List ℝ) (hne : xs ≠ []) (hpos : ∀ y ∈ xs, 0 < y) :
    ∃ r, meanF xs = F.num r ∧ 0 < r := by
  refine ⟨xs.sum / xs.length, ?_, ?_⟩
  · unfold meanF
    rw [if_neg (by simpa [List.isEmpty_iff] using hne)]
  · have hs : 0 < xs.sum := List.sum_pos xs hpos hne
    have hl : 0 < (xs.length : ℝ) := by
      have := List.length_pos.2 hne
      exact_mod_cast this
    exact div_pos hs hl

theorem meanOpt_pos (l : List (Option ℝ)) (hshape : OptShape l)
    (hex : ∃ v, some v ∈ l) : ∃ r, meanOpt l = F.num r ∧ 0 < r := by
  obtain ⟨v, hv⟩ := hex
  have hmem : v ∈ l.filterMap id := List.mem_filterMap.2 ⟨some v, hv, rfl⟩
  refine meanF_pos _ (List.ne_nil_of_mem hmem) ?_
  intro y hy
  rcases List.mem_filterMap.1 hy with ⟨o, ho, hoy⟩
  rcases hshape o ho with rfl | ⟨w, rfl, hw⟩
  · simp at hoy
  · simp at hoy
    exact hoy ▸ hw

theorem meanOpt_shape (l : List (Option ℝ)) (hshape : OptShape l) :
    meanOpt l = F.nan ∨ ∃ r, meanOpt l = F.num r ∧ 0 < r := by
  by_cases hex : ∃ v, some v ∈ l
  · exact Or.inr (meanOpt_pos l hshape hex)
  · refine Or.inl (meanOpt_all_none l ?_)
    intro o ho
    rcases hshape o ho with rfl | ⟨v, rfl, _⟩
    · rfl
    · exact absurd ⟨v, ho⟩ hex

theorem monthMeanOfRatios_shape (rows : List PRow) (ratios : List (Option ℝ))
    (hshape : OptShape ratios) :
    NumPosOrNan (monthMeanOfRatios rows ratios) := by
  intro x hx
  unfold monthMeanOfRatios at hx
  rcases List.mem_map.1 hx with ⟨i, _, rfl⟩
  have hsub : OptShape
      (((rows.zip ratios).filter (fun p => p.1.month == i + 1)).map (fun p => p.2)) := by
    intro o ho
    rcases List.mem_map.1 ho with ⟨p, hp, rfl⟩
    rcases p with ⟨r, o⟩
    exact hshape o (List.of_mem_zip (List.mem_filter.1 hp).1).2
  rcases meanOpt_shape _ hsub with h | ⟨r, h, hr⟩
  · rw [h, fmulc_nan]
    exact Or.inl rfl
  · rw [h, fmulc_num]
    exact Or.inr ⟨r * 100, rfl, by positivity⟩

theorem monthMeanOfRatios_getD_pos (rows : List PRow) (ratios : List (Option ℝ))
    (m : ℕ) (h1 : 1 ≤ m) (h2 : m ≤ 12) (hshape : OptShape ratios)
    (hex : ∃ p ∈ rows.zip ratios, p.1.month = m ∧ ∃ v, p.2 = some v) :
    ∃ r, (monthMeanOfRatios rows ratios).getD (m - 1) F.nan = F.num r ∧ 0 < r := by
  unfold monthMeanOfRatios
  rw [getD_map_range 12 _ (m - 1) _ (by omega), (show m - 1 + 1 = m by omega)]
  obtain ⟨p, hp, hpm, v, hpv⟩ := hex
  have hmemf : p ∈ (rows.zip ratios).filter (fun q => q.1.month == m) :=
    List.mem_filter.2 ⟨hp, by simp [hpm]⟩
  have hmem : p.2 ∈ ((rows.zip ratios).filter (fun q => q.1.month == m)).map (fun q => q.2) :=
    List.mem_map.2 ⟨p, hmemf, rfl⟩
  have hsub : OptShape
      (((rows.zip ratios).filter (fun q => q.1.month == m)).map (fun q => q.2)) := by
    intro o ho
    rcases List.mem_map.1 ho with ⟨q, hq, rfl⟩
    rcases q with ⟨r, o⟩
    exact hshape o (List.of_mem_zip (List.mem_filter.1 hq).1).2
  obtain ⟨r, hmean, hr⟩ := meanOpt_pos _ hsub ⟨v, hpv ▸ hmem⟩
  rw [hmean, fmulc_num]
  exact ⟨r * 100, rfl, by positivity⟩

/-- A NaN-or-positive pre-scale array of length 12 with at least one finite
entry scales to a valid sum-1200 output. -/
theorem sum1200_of_shape (pre : List F) (hlen : pre.length = 12)
    (hshape : NumPosOrNan pre) (hex : ∃ x ∈ pre, x ≠ F.nan) :
    Sum1200Output (scale_base100_to_sum1200 pre) := by
  obtain ⟨hl, hs, _⟩ := scale_pos_spec pre hshape hex
  exact ⟨by rw [hl, hlen], hs⟩

/-- Claim C6: the schema adapter fails with a validation error naming the
missing column whenever one of the required columns is absent (checked in
source order: municipality, year-month, metric, then an explicitly named
trend column), and succeeds whenever every named column is present. -/
theorem C6_adapter_validation (raw : RawTable) (metric_col municipality_col year_month_col : String)
    (trend_hat_col : Option String) :
    (municipality_col ∉ raw.cols →
      to_canonical_monthly_df raw metric_col municipality_col year_month_col trend_hat_col =
        .error ("Missing required column: " ++ municipality_col)) ∧
    (municipality_col ∈ raw.cols → year_month_col ∉ raw.cols →
      to_canonical_monthly_df raw metric_col municipality_col year_month_col trend_hat_col =
        .error ("Missing required column: " ++ year_month_col)) ∧
    (municipality_col ∈ raw.cols → year_month_col ∈ raw.cols → metric_col ∉ raw.cols →
      to_canonical_monthly_df raw metric_col municipality_col year_month_col trend_hat_col =
        .error ("Missing required metric column: " ++ metric_col)) ∧
    (∀ tc, trend_hat_col = some tc → municipality_col ∈ raw.cols → year_month_col ∈ raw.cols →
      metric_col ∈ raw.cols → tc ∉ raw.cols →
      to_canonical_monthly_df raw metric_col municipality_col year_month_col trend_hat_col =
        .error ("trend_hat_col=" ++ tc ++ " not found in dataframe.")) ∧
    (municipality_col ∈ raw.cols → year_month_col ∈ raw.cols → metric_col ∈ raw.cols →
      (∀ tc, trend_hat_col = some tc → tc ∈ raw.cols) →
      ∃ cf, to_canonical_monthly_df raw metric_col municipality_col year_month_col trend_hat_col =
        .ok cf) := by
  refine ⟨?_, ?_, ?_, ?_, ?_⟩
  · intro h
    unfold to_canonical_monthly_df
    rw [if_pos h]
  · intro hm h
    unfold to_canonical_monthly_df
    rw [if_neg (not_not_intro hm), if_pos h]
  · intro hm hy h
    unfold to_canonical_monthly_df
    rw [if_neg (not_not_intro hm), if_neg (not_not_intro hy), if_pos h]
  · intro tc htc hm hy hmc h
    subst htc
    unfold to_canonical_monthly_df
    rw [if_neg (not_not_intro hm), if_neg (not_not_intro hy), if_neg (not_not_intro hmc)]
    dsimp only
    rw [if_pos h]
  · intro hm hy hmc htc
    unfold to_canonical_monthly_df
    rw [if_neg (not_not_intro hm), if_neg (not_not_intro hy), if_neg (not_not_intro hmc)]
    cases trend_hat_col with
    | none => exact ⟨_, rfl⟩
    | some tc =>
      dsimp only
      rw [if_neg (not_not_intro (htc tc rfl))]
      exact ⟨_, rfl⟩

/-- Witness for C6 at a concrete table lacking the municipality column. -/
theorem C6_witness :
    (("municipality" : String) ∉ rawNoMuni.cols) ∧
    to_canonical_monthly_df rawNoMuni ("m") ("municipality") ("year_month") none =
      .error ("Missing required column: municipality") := by
  have h : ("municipality" : String) ∉ rawNoMuni.cols := by decide
  exact ⟨h, (C6_adapter_validation rawNoMuni ("m") ("municipality") ("year_month") none).1 h⟩

/-- Counterexample to claim C7 as stated: a raw table that already has a
column literally named trend_hat, with no trend column requested.  The
source keep_cols test ("trend_hat" in df.columns) keeps that column in the
output, so the output does not contain only date, municipality and y. -/
theorem C7_counterexample :
    (("municipality" : String) ∈ rawTrendThrough.cols ∧
      ("year_month" : String) ∈ rawTrendThrough.cols ∧
      ("m" : String) ∈ rawTrendThrough.cols) ∧
    ¬ (∃ cf, to_canonical_monthly_df rawTrendThrough ("m") ("municipality") ("year_month") none =
        .ok cf ∧ cf.hasTrend = (none : Option String).isSome) := by
  refine ⟨⟨by decide, by decide, by decide⟩, ?_⟩
  rintro ⟨cf, hcf, hh⟩
  have heval : to_canonical_monthly_df rawTrendThrough ("m") ("municipality") ("year_month") none =
      .ok ⟨true, [⟨⟨2023, 1⟩, "A", 10, Cell.cstr ("x")⟩]⟩ := rfl
  rw [heval] at hcf
  cases hcf
  simp at hh

/-- Amended claim C7: when all named columns are present the adapter
succeeds, its output has exactly the columns date, municipality, y and
trend_hat, the latter present exactly when a trend column was requested or
the raw input itself has a column named trend_hat (whose cells then pass
through un-coerced), and its rows are exactly the input rows whose
year-month parses and whose metric coerces to a number; rows with an
unparseable date or non-numeric metric are dropped, never raised on. -/
theorem C7_adapter_rows (raw : RawTable) (metric_col municipality_col year_month_col : String)
    (trend_hat_col : Option String)
    (hm : municipality_col ∈ raw.cols) (hy : year_month_col ∈ raw.cols)
    (hmc : metric_col ∈ raw.cols) (ht : ∀ tc, trend_hat_col = some tc → tc ∈ raw.cols) :
    ∃ cf, to_canonical_monthly_df raw metric_col municipality_col year_month_col trend_hat_col =
        .ok cf ∧
      cf.hasTrend = (trend_hat_col.isSome || decide (("trend_hat" : String) ∈ raw.cols)) ∧
      cf.rows = raw.rows.filterMap (fun r =>
        match parseYearMonthCell (getCell r year_month_col), toNumeric (getCell r metric_col) with
        | some d, some yv =>
            some ⟨d, cellStr (getCell r municipality_col), yv,
              match trend_hat_col with
              | some tc => numToCell (toNumeric (getCell r tc))
              | none =>
                  if ("trend_hat" : String) ∈ raw.cols then getCell r ("trend_hat")
                  else Cell.cnull⟩
        | _, _ => none) ∧
      (trend_hat_col = none → ("trend_hat" : String) ∉ raw.cols →
        ∀ r ∈ cf.rows, r.trend_hat = Cell.cnull) := by
  unfold to_canonical_monthly_df
  rw [if_neg (not_not_intro hm), if_neg (not_not_intro hy), if_neg (not_not_intro hmc)]
  cases trend_hat_col with
  | none =>
    refine ⟨_, rfl, by simp, ?_, ?_⟩
    · unfold dropMissingDateY addDerivedColumns
      rw [List.filterMap_map]
      rfl
    · intro _ habs r hr
      unfold dropMissingDateY addDerivedColumns at hr
      rw [List.filterMap_map] at hr
      rcases List.mem_filterMap.1 hr with ⟨row, _, heq⟩
      simp only [Function.comp] at heq
      rw [if_neg habs] at heq
      rcases hp : parseYearMonthCell (getCell row year_month_col) with _ | d
      · rw [hp] at heq
        simp at heq
      · rw [hp] at heq
        rcases hn : toNumeric (getCell row metric_col) with _ | yv
        · rw [hn] at heq
          simp at heq
        · rw [hn] at heq
          cases heq
          rfl
  | some tc =>
    dsimp only
    rw [if_neg (not_not_intro (ht tc rfl))]
    refine ⟨_, rfl, by simp, ?_, ?_⟩
    · unfold dropMissingDateY addDerivedColumns
      rw [List.filterMap_map]
      rfl
    · intro h
      exact absurd h (by simp)

/-- Witness for the amended claim C7, in two parts: at the concrete mixed
table (no raw trend_hat column; one clean row, one non-numeric metric, one
unparseable year-month) the theorem applies with its hypotheses discharged
concretely. -/
theorem C7_witness :
    (("municipality" : String) ∈ rawMixed.cols ∧ ("year_month" : String) ∈ rawMixed.cols ∧
      ("m" : String) ∈ rawMixed.cols) ∧
    (∃ cf, to_canonical_monthly_df rawMixed ("m") ("municipality") ("year_month") none = .ok cf ∧
      cf.hasTrend = ((none : Option String).isSome
        || decide (("trend_hat" : String) ∈ rawMixed.cols)) ∧
      cf.rows = rawMixed.rows.filterMap (fun r =>
        match parseYearMonthCell (getCell r ("year_month")), toNumeric (getCell r ("m")) with
        | some d, some yv =>
            some ⟨d, cellStr (getCell r ("municipality")), yv,
              match (none : Option String) with
              | some tc => numToCell (toNumeric (getCell r tc))
              | none =>
                  if ("trend_hat" : String) ∈ rawMixed.cols then getCell r ("trend_hat")
                  else Cell.cnull⟩
        | _, _ => none) ∧
      ((none : Option String) = none → ("trend_hat" : String) ∉ rawMixed.cols →
        ∀ r ∈ cf.rows, r.trend_hat = Cell.cnull)) := by
  refine ⟨⟨by decide, by decide, by decide⟩, ?_⟩
  exact C7_adapter_rows rawMixed ("m") ("municipality") ("year_month") none
    (by decide) (by decide) (by decide) (fun tc h => by simp at h)

/-! Order lemmas for the prepare_monthly sort key. -/

theorem dateLeB_trans (a b c : Date) (h1 : dateLeB a b = true) (h2 : dateLeB b c = true) :
    dateLeB a c = true := by
  unfold dateLeB at *
  simp only [Bool.or_eq_true, Bool.and_eq_true, decide_eq_true_eq, beq_iff_eq] at *
  omega

theorem dateLeB_total (a b : Date) : (dateLeB a b || dateLeB b a) = true := by
  unfold dateLeB
  simp only [Bool.or_eq_true, Bool.and_eq_true, decide_eq_true_eq, beq_iff_eq]
  omega

theorem rowLeB_trans (hasMuni : Bool) (a b c : CanonRow)
    (h1 : rowLeB hasMuni a b = true) (h2 : rowLeB hasMuni b c = true) :
    rowLeB hasMuni a c = true := by
  cases hasMuni with
  | false =>
    unfold rowLeB at *
    exact dateLeB_trans _ _ _ h1 h2
  | true =>
    unfold rowLeB at *
    simp only [if_true, Bool.or_eq_true, Bool.and_eq_true, decide_eq_true_eq, beq_iff_eq] at *
    rcases h1 with h1 | ⟨h1e, h1d⟩
    · rcases h2 with h2 | ⟨h2e, h2d⟩
      · exact Or.inl (lt_trans h1 h2)
      · exact Or.inl (h2e ▸ h1)
    · rcases h2 with h2 | ⟨h2e, h2d⟩
      · exact Or.inl (h1e ▸ h2)
      · exact Or.inr ⟨h1e.trans h2e, dateLeB_trans _ _ _ h1d h2d⟩

theorem rowLeB_total (hasMuni : Bool) (a b : CanonRow) :
    (rowLeB hasMuni a b || rowLeB hasMuni b a) = true := by
  cases hasMuni with
  | false =>
    unfold rowLeB
    exact dateLeB_total _ _
  | true =>
    unfold rowLeB
    simp only [if_true, Bool.or_eq_true, Bool.and_eq_true, decide_eq_true_eq, beq_iff_eq]
    rcases lt_trichotomy a.municipality b.municipality with h | h | h
    · exact Or.inl (Or.inl h)
    · have := dateLeB_total a.date b.date
      simp only [Bool.or_eq_true] at this
      rcases this with hd | hd
      · exact Or.inl (Or.inr ⟨h, hd⟩)
      · exact Or.inr (Or.inr ⟨h.symm, hd⟩)
    · exact Or.inr (Or.inl h)

theorem natMin?_perm (l1 l2 : List ℕ) (h : l1.Perm l2) : l1.min? = l2.min? := by
  have hle : ∀ a : ℕ, a ≤ a := fun a => Nat.le_refl a
  have hor : ∀ a b : ℕ, min a b = a ∨ min a b = b := fun a b => by omega
  have hiff : ∀ a b c : ℕ, a ≤ min b c ↔ a ≤ b ∧ a ≤ c := fun a b c => by omega
  cases h1 : l1.min? with
  | none =>
    rw [List.min?_eq_none_iff] at h1
    subst h1
    have : l2 = [] := (h.symm).eq_nil
    rw [this]
    rfl
  | some a =>
    have h2 := (List.min?_eq_some_iff hle hor hiff).1 h1
    rw [(List.min?_eq_some_iff hle hor hiff).2
      ⟨h.mem_iff.1 h2.1, fun b hb => h2.2 b (h.mem_iff.2 hb)⟩]

theorem minYearOf_perm (l1 l2 : List CanonRow) (h : l1.Perm l2) :
    minYearOf l1 = minYearOf l2 := by
  unfold minYearOf
  rw [natMin?_perm _ _ (h.map (fun r => r.date.year))]

/-- Claim C8, with the stability conjunct restricted to the branch where the
code guarantees it: prepare_monthly sorts the rows ascending by
(municipality, date) when a municipality column exists (by date alone
otherwise) and every output row gets time_index = (year - minimum year over
the whole input) * 12 + (month - 1), with the minimum year computed
globally.  The multi-key branch is stable (pandas sorts several keys with
numpy lexsort); the single-key branch calls sort_values with the default
quicksort, which does not guarantee stability, so the claim's required
stable ordering is not delivered by the code there. -/
theorem C8_prepare_monthly (hasMuni : Bool) (f : CanonFrame) :
    ((prepare_monthly hasMuni f).rows.map stripPRow).Perm f.rows ∧
    ((prepare_monthly hasMuni f).rows.map stripPRow).Pairwise
      (fun a b => rowLeB hasMuni a b = true) ∧
    (hasMuni = true →
      ∀ a b : CanonRow, rowLeB hasMuni a b = true → List.Sublist [a, b] f.rows →
      List.Sublist [a, b] ((prepare_monthly hasMuni f).rows.map stripPRow)) ∧
    (∀ r ∈ (prepare_monthly hasMuni f).rows,
      r.month = r.date.month ∧
      r.time_index = (r.date.year - minYearOf f.rows) * 12 + (r.date.month - 1)) := by
  have hcomp : (fun r : CanonRow => stripPRow (augmentRow (minYearOf (f.rows.mergeSort (rowLeB hasMuni))) r)) = id :=
    funext (fun r => rfl)
  have key : (prepare_monthly hasMuni f).rows.map stripPRow =
      f.rows.mergeSort (rowLeB hasMuni) := by
    unfold prepare_monthly
    rw [List.map_map]
    show (f.rows.mergeSort (rowLeB hasMuni)).map
      (fun r => stripPRow (augmentRow (minYearOf (f.rows.mergeSort (rowLeB hasMuni))) r)) = _
    rw [hcomp, List.map_id]
  refine ⟨?_, ?_, ?_, ?_⟩
  · rw [key]
    exact List.mergeSort_perm f.rows _
  · rw [key]
    exact List.sorted_mergeSort (rowLeB_trans hasMuni) (rowLeB_total hasMuni) f.rows
  · intro _ a b hab hsub
    rw [key]
    exact List.pair_sublist_mergeSort (rowLeB_trans hasMuni) (rowLeB_total hasMuni) hab hsub
  · intro r hr
    unfold prepare_monthly at hr
    rcases List.mem_map.1 hr with ⟨r0, hr0, rfl⟩
    have hmin : minYearOf (f.rows.mergeSort (rowLeB hasMuni)) = minYearOf f.rows :=
      minYearOf_perm _ _ (List.mergeSort_perm f.rows _)
    exact ⟨rfl, by rw [augmentRow, hmin]⟩

/-! Per-method sum-1200 contracts: on positive data the pre-scale array of
each method is NaN-or-positive with at least one finite entry, so the scaling
utility normalizes it to sum 1200. -/

theorem exists_ne_nan_of_getD_num (l : List F) (i : ℕ) (hi : i < l.length) (r : ℝ)
    (h : l.getD i F.nan = F.num r) : ∃ x ∈ l, x ≠ F.nan := by
  rw [List.getD_eq_getElem _ _ hi] at h
  exact ⟨l[i], List.getElem_mem hi, by rw [h]; simp⟩

theorem meanF_nil : meanF [] = F.nan := by
  simp [meanF]

theorem medianF_nil : medianF [] = F.nan := by
  simp [medianF]

theorem monthRows_sub (rows : List PRow) (m : ℕ) (r : PRow) (h : r ∈ monthRows rows m) :
    r ∈ rows :=
  (List.mem_filter.1 h).1

theorem monthRows_mem (rows : List PRow) (r : PRow) (h : r ∈ rows) :
    r ∈ monthRows rows r.month :=
  List.mem_filter.2 ⟨h, by simp⟩

/-- Contract of simple_averages on nonempty positive data: a valid sum-1200
12-entry index. -/
theorem simple_averages_contract (g : PFrame) (hne : g.rows ≠ [])
    (hpos : ∀ r ∈ g.rows, 0 < r.y)
    (hmonths : ∀ r ∈ g.rows, 1 ≤ r.month ∧ r.month ≤ 12) :
    Sum1200Output (simple_averages g) := by
  obtain ⟨o, ho, hop⟩ := meanF_pos (g.rows.map (fun r => r.y))
    (by simpa using hne)
    (fun y hy => by
      rcases List.mem_map.1 hy with ⟨r, hr, rfl⟩
      exact hpos r hr)
  have hentry : ∀ i, (monthRows g.rows (i + 1)) ≠ [] →
      ∃ v, fmulc 100 (fdivF (meanF ((monthRows g.rows (i + 1)).map (fun r => r.y)))
        (meanF (g.rows.map (fun r => r.y)))) = F.num v ∧ 0 < v := by
    intro i hne2
    obtain ⟨mi, hmi, hmip⟩ := meanF_pos ((monthRows g.rows (i + 1)).map (fun r => r.y))
      (by simpa using hne2)
      (fun y hy => by
        rcases List.mem_map.1 hy with ⟨r, hr, rfl⟩
        exact hpos r (monthRows_sub _ _ _ hr))
    rw [ho, hmi, fdivF_num_num _ _ (ne_of_gt hop), fmulc_num]
    exact ⟨mi / o * 100, rfl, by positivity⟩
  unfold simple_averages
  apply sum1200_of_shape
  · simp [monthMeansOver]
  · intro x hx
    unfold monthMeansOver at hx
    rcases List.mem_map.1 hx with ⟨i, _, rfl⟩
    by_cases hmt : monthRows g.rows (i + 1) = []
    · rw [hmt]
      simp only [List.map_nil, meanF_nil, fdivF_nan_left, fmulc_nan]
      exact Or.inl trivial
    · obtain ⟨v, hv, hvp⟩ := hentry i hmt
      exact Or.inr ⟨v, hv, hvp⟩
  · obtain ⟨r0, hr0⟩ := List.exists_mem_of_ne_nil g.rows hne
    obtain ⟨hm1, hm2⟩ := hmonths r0 hr0
    have hmem : r0 ∈ monthRows g.rows (r0.month - 1 + 1) := by
      rw [show r0.month - 1 + 1 = r0.month by omega]
      exact monthRows_mem g.rows r0 hr0
    obtain ⟨v, hv, hvp⟩ := hentry (r0.month - 1) (List.ne_nil_of_mem hmem)
    refine exists_ne_nan_of_getD_num _ (r0.month - 1) (by simp [monthMeansOver]; omega) v ?_
    unfold monthMeansOver
    rw [getD_map_range 12 _ (r0.month - 1) _ (by omega)]
    exact hv

/-! Link relatives: the chain entries are NaN or positive, and January is
always the finite entry 100. -/

theorem linkRel_shape (ys : List ℝ) (hpos : ∀ y ∈ ys, 0 < y) :
    OptShape (linkRelativesColumn ys) := by
  intro o ho
  unfold linkRelativesColumn at ho
  rcases List.mem_map.1 ho with ⟨i, hi, rfl⟩
  have hin : i < ys.length := List.mem_range.1 hi
  by_cases h0 : i = 0
  · rw [if_pos h0]
    exact Or.inl rfl
  · rw [if_neg h0]
    by_cases hprev : ys.getD (i - 1) 0 = 0
    · rw [if_pos hprev]
      exact Or.inl rfl
    · rw [if_neg hprev]
      right
      refine ⟨_, rfl, ?_⟩
      have hprevlt : i - 1 < ys.length := by omega
      have hp1 : 0 < ys.getD (i - 1) 0 := by
        rw [List.getD_eq_getElem _ _ hprevlt]
        exact hpos _ (List.getElem_mem hprevlt)
      have hp2 : 0 < ys.getD i 0 := by
        rw [List.getD_eq_getElem _ _ hin]
        exact hpos _ (List.getElem_mem hin)
      positivity

theorem avgLinkRel_shape (g : PFrame) (hpos : ∀ r ∈ g.rows, 0 < r.y) :
    NumPosOrNan (avgLinkRelByMonth g) := by
  have hys : ∀ y ∈ g.rows.map (fun r => r.y), 0 < y := fun y hy => by
    rcases List.mem_map.1 hy with ⟨r, hr, rfl⟩
    exact hpos r hr
  have hlr := linkRel_shape _ hys
  intro x hx
  unfold avgLinkRelByMonth at hx
  rcases List.mem_map.1 hx with ⟨i, _, rfl⟩
  have hsub : OptShape
      (((g.rows.zip (linkRelativesColumn (g.rows.map (fun r => r.y)))).filter
        (fun p => p.1.month == i + 1)).map (fun p => p.2)) := by
    intro o ho
    rcases List.mem_map.1 ho with ⟨p, hp, rfl⟩
    rcases p with ⟨r, o⟩
    exact hlr o (List.of_mem_zip (List.mem_filter.1 hp).1).2
  rcases meanOpt_shape _ hsub with h | ⟨r, h, hr⟩
  · rw [h]
    exact Or.inl rfl
  · rw [h]
    exact Or.inr ⟨r, rfl, hr⟩

theorem chainFrom_shape (avgs : List F) (hs : NumPosOrNan avgs) (m : ℕ) :
    chainFrom avgs m = F.nan ∨ ∃ r, chainFrom avgs m = F.num r ∧ 0 < r := by
  induction m with
  | zero => exact Or.inr ⟨100, rfl, by norm_num⟩
  | succ m ih =>
    have havg : avgs.getD (m + 1) F.nan = F.nan ∨
        ∃ r, avgs.getD (m + 1) F.nan = F.num r ∧ 0 < r := by
      by_cases h : m + 1 < avgs.length
      · rw [List.getD_eq_getElem _ _ h]
        exact hs _ (List.getElem_mem h)
      · rw [List.getD_eq_default _ _ (by omega)]
        exact Or.inl rfl
    show chainStep (avgs.getD (m + 1) F.nan) (chainFrom avgs m) = F.nan ∨
      ∃ r, chainStep (avgs.getD (m + 1) F.nan) (chainFrom avgs m) = F.num r ∧ 0 < r
    rcases havg with h | ⟨x, h, hx⟩
    · rw [h]
      exact Or.inl rfl
    · rw [h]
      simp only [chainStep]
      rw [if_neg (ne_of_gt hx)]
      rcases ih with hih | ⟨p, hih, hp⟩
      · rw [hih]
        exact Or.inl rfl
      · rw [hih]
        right
        exact ⟨p * (x / 100), rfl, by positivity⟩

/-- Contract of link_relatives on positive data: a valid sum-1200 12-entry
index (January contributes the finite chain start 100, so the sum is never
degenerate). -/
theorem link_relatives_contract (g : PFrame) (hpos : ∀ r ∈ g.rows, 0 < r.y) :
    Sum1200Output (link_relatives g) := by
  unfold link_relatives
  apply sum1200_of_shape
  · simp [chained_seasonal_index]
  · intro x hx
    unfold chained_seasonal_index at hx
    rcases List.mem_map.1 hx with ⟨i, _, rfl⟩
    rcases chainFrom_shape (avgLinkRelByMonth g) (avgLinkRel_shape g hpos) i with h | ⟨r, h, hr⟩
    · exact Or.inl h
    · exact Or.inr ⟨r, h, hr⟩
  · refine ⟨chainFrom (avgLinkRelByMonth g) 0, ?_, by simp [chainFrom]⟩
    unfold chained_seasonal_index
    exact List.mem_map.2 ⟨0, by simp, rfl⟩

/-! Ratio to median: per-month medians are NaN or positive and the overall
nanmedian of positive medians is positive. -/

theorem medianF_pos (xs : List ℝ) (hne : xs ≠ []) (hpos : ∀ y ∈ xs, 0 < y) :
    ∃ r, medianF xs = F.num r ∧ 0 < r := by
  have hperm : (sortR xs).Perm xs := List.mergeSort_perm xs _
  have hlen : (sortR xs).length = xs.length := hperm.length_eq
  have hlpos : 0 < (sortR xs).length := by
    rw [hlen]
    exact List.length_pos.2 hne
  have hspos : ∀ y ∈ sortR xs, 0 < y := fun y hy => hpos y (hperm.mem_iff.1 hy)
  refine ⟨medianOfSorted (sortR xs), ?_, ?_⟩
  · unfold medianF
    rw [if_neg (by simpa [List.isEmpty_iff] using hne)]
  · unfold medianOfSorted
    by_cases hodd : (sortR xs).length % 2 = 1
    · rw [if_pos hodd]
      have hidx : (sortR xs).length / 2 < (sortR xs).length := Nat.div_lt_self hlpos (by norm_num)
      rw [List.getD_eq_getElem _ _ hidx]
      exact hspos _ (List.getElem_mem hidx)
    · rw [if_neg hodd]
      have hi1 : (sortR xs).length / 2 - 1 < (sortR xs).length := by omega
      have hi2 : (sortR xs).length / 2 < (sortR xs).length := Nat.div_lt_self hlpos (by norm_num)
      rw [List.getD_eq_getElem _ _ hi1, List.getD_eq_getElem _ _ hi2]
      have hp1 := hspos _ (List.getElem_mem hi1)
      have hp2 := hspos _ (List.getElem_mem hi2)
      linarith

theorem monthlyMedians_shape (rows : List PRow) (hpos : ∀ r ∈ rows, 0 < r.y) :
    NumPosOrNan (monthlyMedians rows) := by
  intro x hx
  unfold monthlyMedians at hx
  rcases List.mem_map.1 hx with ⟨i, _, rfl⟩
  by_cases hmt : monthRows rows (i + 1) = []
  · rw [hmt]
    simp only [List.map_nil, medianF_nil]
    exact Or.inl trivial
  · obtain ⟨r, hr, hrp⟩ := medianF_pos ((monthRows rows (i + 1)).map (fun q => q.y))
      (by simpa using hmt)
      (fun y hy => by
        rcases List.mem_map.1 hy with ⟨q, hq, rfl⟩
        exact hpos q (monthRows_sub _ _ _ hq))
    exact Or.inr ⟨r, hr, hrp⟩

/-- Contract of ratio_to_median on nonempty positive data: a valid sum-1200
12-entry index. -/
theorem ratio_to_median_contract (g : PFrame) (hne : g.rows ≠ [])
    (hpos : ∀ r ∈ g.rows, 0 < r.y)
    (hmonths : ∀ r ∈ g.rows, 1 ≤ r.month ∧ r.month ≤ 12) :
    Sum1200Output (ratio_to_median g) := by
  have hshape := monthlyMedians_shape g.rows hpos
  -- a month that is present has a positive finite median entry
  obtain ⟨r0, hr0⟩ := List.exists_mem_of_ne_nil g.rows hne
  obtain ⟨hm1, hm2⟩ := hmonths r0 hr0
  have hmemf : r0 ∈ monthRows g.rows (r0.month - 1 + 1) := by
    rw [show r0.month - 1 + 1 = r0.month by omega]
    exact monthRows_mem g.rows r0 hr0
  obtain ⟨m0, hm0, hm0p⟩ := medianF_pos ((monthRows g.rows (r0.month - 1 + 1)).map (fun q => q.y))
    (by simpa using List.ne_nil_of_mem hmemf)
    (fun y hy => by
      rcases List.mem_map.1 hy with ⟨q, hq, rfl⟩
      exact hpos q (monthRows_sub _ _ _ hq))
  have hmem0 : F.num m0 ∈ monthlyMedians g.rows := by
    unfold monthlyMedians
    exact List.mem_map.2 ⟨r0.month - 1, by simp; omega, hm0⟩
  -- the overall nanmedian is a positive finite value
  have hextpos : ∀ y ∈ (monthlyMedians g.rows).filterMap
      (fun v => match v with | .num x => some x | _ => none), 0 < y := by
    intro y hy
    rcases List.mem_filterMap.1 hy with ⟨v, hv, hvy⟩
    rcases hshape v hv with rfl | ⟨r, rfl, hr⟩
    · simp at hvy
    · simp at hvy
      exact hvy ▸ hr
  have hextne : (monthlyMedians g.rows).filterMap
      (fun v => match v with | .num x => some x | _ => none) ≠ [] :=
    List.ne_nil_of_mem (List.mem_filterMap.2 ⟨F.num m0, hmem0, rfl⟩)
  obtain ⟨o, hov, hop⟩ := medianF_pos _ hextne hextpos
  have hnm : nanmedianF (monthlyMedians g.rows) = F.num o := hov
  unfold ratio_to_median
  rw [hnm]
  simp only [medianBase100]
  rw [if_neg (ne_of_gt hop)]
  apply sum1200_of_shape
  · simp [monthlyMedians]
  · intro x hx
    rcases List.mem_map.1 hx with ⟨v, hv, rfl⟩
    rcases hshape v hv with rfl | ⟨r, rfl, hr⟩
    · rw [fdivF_nan_left, fmulc_nan]
      exact Or.inl rfl
    · rw [fdivF_num_num _ _ (ne_of_gt hop), fmulc_num]
      exact Or.inr ⟨r / o * 100, rfl, by positivity⟩
  · refine ⟨fmulc 100 (fdivF (F.num m0) (F.num o)), List.mem_map.2 ⟨F.num m0, hmem0, rfl⟩, ?_⟩
    rw [fdivF_num_num _ _ (ne_of_gt hop), fmulc_num]
    simp

/-! Ratio to trend: the per-row ratios are all positive, against a supplied
positive trend or against the always-positive exponential fallback. -/

theorem zip_self_map {α β : Type} (l : List α) (h : α → β) :
    l.zip (l.map h) = l.map (fun a => (a, h a)) := by
  induction l with
  | nil => rfl
  | cons a l ih => simp [ih]

theorem ratioOverTrend_pos (yv t : ℝ) (hy : 0 < yv) (ht : 0 < t) :
    ∃ v, ratioOverTrend yv (some t) = some v ∧ 0 < v := by
  unfold ratioOverTrend
  dsimp only
  rw [if_neg (ne_of_gt ht)]
  exact ⟨yv / t, rfl, div_pos hy ht⟩

theorem trendRatios_cases (g : PFrame) :
    ∃ h : PRow → Option ℝ, trendRatios g = g.rows.map h ∧
      ((∀ r ∈ g.rows, 0 < r.y) →
       (g.hasTrend = true → ∀ r ∈ g.rows, ∃ t, toNumeric r.trend_hat = some t ∧ 0 < t) →
       ∀ r ∈ g.rows, ∃ v, h r = some v ∧ 0 < v) := by
  by_cases hf : g.hasTrend = true
  · refine ⟨fun r => ratioOverTrend r.y (toNumeric r.trend_hat), ?_, ?_⟩
    · unfold trendRatios
      rw [if_pos hf]
    · intro hpos htr r hr
      obtain ⟨t, htt, htp⟩ := htr hf r hr
      show ∃ v, ratioOverTrend r.y (toNumeric r.trend_hat) = some v ∧ 0 < v
      rw [htt]
      exact ratioOverTrend_pos _ _ (hpos r hr) htp
  · refine ⟨fun r => ratioOverTrend r.y
      (some (Real.exp ((olsLogLinear g.rows).1 + (olsLogLinear g.rows).2 * (r.time_index : ℝ)))),
      ?_, ?_⟩
    · unfold trendRatios
      rw [if_neg hf]
      unfold fallbackTrendHat
      rw [List.zipWith_map_right, List.zipWith_same]
    · intro hpos _ r hr
      exact ratioOverTrend_pos _ _ (hpos r hr) (Real.exp_pos _)

/-- Contract of ratio_to_trend on nonempty positive data (and a positive
supplied trend when one is present): a valid sum-1200 12-entry index. -/
theorem ratio_to_trend_contract (g : PFrame) (hne : g.rows ≠ [])
    (hpos : ∀ r ∈ g.rows, 0 < r.y)
    (hmonths : ∀ r ∈ g.rows, 1 ≤ r.month ∧ r.month ≤ 12)
    (htr : g.hasTrend = true → ∀ r ∈ g.rows, ∃ t, toNumeric r.trend_hat = some t ∧ 0 < t) :
    Sum1200Output (ratio_to_trend g) := by
  obtain ⟨h, heq, hall0⟩ := trendRatios_cases g
  have hall := hall0 hpos htr
  have hshape : OptShape (trendRatios g) := by
    rw [heq]
    intro o ho
    rcases List.mem_map.1 ho with ⟨r, hr, rfl⟩
    obtain ⟨v, hv, hvp⟩ := hall r hr
    exact Or.inr ⟨v, hv, hvp⟩
  unfold ratio_to_trend
  apply sum1200_of_shape
  · simp [monthMeanOfRatios]
  · exact monthMeanOfRatios_shape _ _ hshape
  · obtain ⟨r0, hr0⟩ := List.exists_mem_of_ne_nil g.rows hne
    obtain ⟨hm1, hm2⟩ := hmonths r0 hr0
    obtain ⟨v, hv, hvp⟩ := hall r0 hr0
    obtain ⟨w, hgd, hwp⟩ := monthMeanOfRatios_getD_pos g.rows (trendRatios g) r0.month hm1 hm2
      hshape
      ⟨(r0, h r0), by
        rw [heq, zip_self_map]
        exact List.mem_map.2 ⟨r0, hr0, rfl⟩, rfl, v, hv⟩
    exact exists_ne_nan_of_getD_num _ (r0.month - 1)
      (by simp [monthMeanOfRatios]; omega) w hgd

/-! Ratio to moving average: with at least 13 rows of positive data the
centered moving average exists somewhere and every valid ratio is positive. -/

theorem sortByDate_mem (rows : List PRow) (r : PRow) : r ∈ sortByDate rows ↔ r ∈ rows := by
  unfold sortByDate
  exact List.mem_mergeSort

theorem sortByDate_length (rows : List PRow) : (sortByDate rows).length = rows.length := by
  unfold sortByDate
  exact List.length_mergeSort rows

theorem rtmaRatios_length (rows : List PRow) : (rtmaRatios rows).length = rows.length := by
  unfold rtmaRatios
  simp

theorem rollingMean12_pos (ys : List ℝ) (hpos : ∀ y ∈ ys, 0 < y) (t : ℕ) (v : ℝ)
    (h : rollingMeanLastW ys 12 t = some v) : 0 < v := by
  obtain ⟨hw, ht⟩ := rollingMeanLastW_cond ys 12 t v h
  unfold rollingMeanLastW at h
  rw [if_pos ⟨hw, ht⟩] at h
  have hslice : ((ys.drop (t + 1 - 12)).take 12) ≠ [] := by
    have hlen : ((ys.drop (t + 1 - 12)).take 12).length = 12 := by
      rw [List.length_take, List.length_drop]
      omega
    intro hnil
    rw [hnil] at hlen
    simp at hlen
  have hsp : 0 < ((ys.drop (t + 1 - 12)).take 12).sum :=
    List.sum_pos _ (fun y hy => hpos y (List.mem_of_mem_drop (List.mem_of_mem_take hy))) hslice
  have hv : ((ys.drop (t + 1 - 12)).take 12).sum / (12 : ℝ) = v := by
    injection h
  rw [← hv]
  positivity

theorem cma12_shape (ys : List ℝ) (hpos : ∀ y ∈ ys, 0 < y) (t : ℕ) :
    (centered_moving_average_even_window ys 12).getD t none = none ∨
    ∃ c, (centered_moving_average_even_window ys 12).getD t none = some c ∧ 0 < c := by
  unfold centered_moving_average_even_window
  by_cases ht : t < ys.length
  · rw [getD_map_range _ _ _ _ ht]
    rcases h1 : rollingMeanLastW ys 12 t with _ | a
    · exact Or.inl rfl
    · rcases h2 : rollingMeanLastW ys 12 (t + 1) with _ | b
      · exact Or.inl rfl
      · right
        refine ⟨(a + b) / 2, rfl, ?_⟩
        have ha := rollingMean12_pos ys hpos t a h1
        have hb := rollingMean12_pos ys hpos (t + 1) b h2
        linarith
  · rw [List.getD_eq_default _ _ (by simpa using Nat.le_of_not_lt ht)]
    exact Or.inl rfl

theorem rtmaRatios_shape (rows : List PRow) (hpos : ∀ r ∈ rows, 0 < r.y) :
    OptShape (rtmaRatios rows) := by
  have hys : ∀ y ∈ rows.map (fun r => r.y), 0 < y := fun y hy => by
    rcases List.mem_map.1 hy with ⟨r, hr, rfl⟩
    exact hpos r hr
  intro o ho
  unfold rtmaRatios at ho
  rcases List.mem_map.1 ho with ⟨t, htm, rfl⟩
  have ht : t < rows.length := List.mem_range.1 htm
  rcases cma12_shape (rows.map (fun r => r.y)) hys t with h | ⟨c, h, hc⟩
  · rw [h]
    exact Or.inl rfl
  · rw [h]
    dsimp only
    rw [if_neg (ne_of_gt hc)]
    right
    refine ⟨_, rfl, ?_⟩
    have htl : t < (rows.map (fun r => r.y)).length := by simpa using ht
    have hyt : 0 < (rows.map (fun r => r.y)).getD t 0 := by
      rw [List.getD_eq_getElem _ _ htl]
      exact hys _ (List.getElem_mem htl)
    exact div_pos hyt hc

/-- Contract of ratio_to_moving_average on at least 13 rows of positive
data: a valid sum-1200 12-entry index. -/
theorem rtma_contract (g : PFrame) (h13 : 13 ≤ g.rows.length)
    (hpos : ∀ r ∈ g.rows, 0 < r.y)
    (hmonths : ∀ r ∈ g.rows, 1 ≤ r.month ∧ r.month ≤ 12) :
    Sum1200Output (ratio_to_moving_average g) := by
  have hpos' : ∀ r ∈ sortByDate g.rows, 0 < r.y := fun r hr =>
    hpos r ((sortByDate_mem _ _).1 hr)
  have hm' : ∀ r ∈ sortByDate g.rows, 1 ≤ r.month ∧ r.month ≤ 12 := fun r hr =>
    hmonths r ((sortByDate_mem _ _).1 hr)
  have hlen : 13 ≤ (sortByDate g.rows).length := by
    rw [sortByDate_length]
    exact h13
  have hys : ∀ y ∈ (sortByDate g.rows).map (fun r => r.y), 0 < y := fun y hy => by
    rcases List.mem_map.1 hy with ⟨r, hr, rfl⟩
    exact hpos' r hr
  have hyslen : ((sortByDate g.rows).map (fun r => r.y)).length = (sortByDate g.rows).length := by
    simp
  unfold ratio_to_moving_average
  apply sum1200_of_shape
  · simp [monthMeanOfRatios]
  · exact monthMeanOfRatios_shape _ _ (rtmaRatios_shape _ hpos')
  · have hr1 : ∃ a, rollingMeanLastW ((sortByDate g.rows).map (fun r => r.y)) 12 11 = some a := by
      unfold rollingMeanLastW
      rw [if_pos ⟨by norm_num, by omega⟩]
      exact ⟨_, rfl⟩
    have hr2 : ∃ b, rollingMeanLastW ((sortByDate g.rows).map (fun r => r.y)) 12 12 = some b := by
      unfold rollingMeanLastW
      rw [if_pos ⟨by norm_num, by omega⟩]
      exact ⟨_, rfl⟩
    obtain ⟨a, hr1⟩ := hr1
    obtain ⟨b, hr2⟩ := hr2
    have hcma : (centered_moving_average_even_window
        ((sortByDate g.rows).map (fun r => r.y)) 12).getD 11 none = some ((a + b) / 2) := by
      unfold centered_moving_average_even_window
      rw [getD_map_range _ _ _ _ (by omega : 11 < ((sortByDate g.rows).map (fun r => r.y)).length)]
      rw [show (11 : ℕ) + 1 = 12 from rfl, hr1, hr2]
    have hcpos : 0 < (a + b) / 2 := by
      have ha := rollingMean12_pos _ hys 11 a hr1
      have hb := rollingMean12_pos _ hys 12 b hr2
      linarith
    have hrat : (rtmaRatios (sortByDate g.rows)).getD 11 none =
        some (((sortByDate g.rows).map (fun r => r.y)).getD 11 0 / ((a + b) / 2)) := by
      unfold rtmaRatios
      rw [getD_map_range _ _ _ _ (by omega : 11 < (sortByDate g.rows).length)]
      rw [hcma]
      dsimp only
      rw [if_neg (ne_of_gt hcpos)]
    have hratlen : 11 < (rtmaRatios (sortByDate g.rows)).length := by
      rw [rtmaRatios_length]
      omega
    have h11 : 11 < (sortByDate g.rows).length := by omega
    have hzlen : 11 < ((sortByDate g.rows).zip (rtmaRatios (sortByDate g.rows))).length := by
      rw [List.length_zip, rtmaRatios_length]
      simp
      omega
    have hzel : ((sortByDate g.rows).zip (rtmaRatios (sortByDate g.rows)))[11] =
        ((sortByDate g.rows)[11], (rtmaRatios (sortByDate g.rows))[11]) := List.getElem_zip
    obtain ⟨hm1, hm2⟩ := hm' (sortByDate g.rows)[11] (List.getElem_mem h11)
    rw [List.getD_eq_getElem _ _ hratlen] at hrat
    obtain ⟨w, hgd, hwp⟩ := monthMeanOfRatios_getD_pos (sortByDate g.rows)
      (rtmaRatios (sortByDate g.rows)) ((sortByDate g.rows)[11]).month hm1 hm2
      (rtmaRatios_shape _ hpos')
      ⟨((sortByDate g.rows)[11], (rtmaRatios (sortByDate g.rows))[11]),
        by rw [← hzel]; exact List.getElem_mem hzlen, rfl, _, hrat⟩
    exact exists_ne_nan_of_getD_num _ (((sortByDate g.rows)[11]).month - 1)
      (by simp [monthMeanOfRatios]; omega) w hgd

theorem nnSum_replicate_nan (n : ℕ) : nnSum (List.replicate n F.nan) = 0 := by
  unfold nnSum
  rw [List.filterMap_eq_nil_iff.2 (fun a ha => by rw [List.eq_of_mem_replicate ha])]
  simp

theorem wellFormed_pfConst : WellFormedNoMissingMonths pfConst := by
  refine ⟨by simp [pfConst], ?_, ?_, ?_, ?_⟩
  · intro r hr
    fin_cases hr <;> norm_num [pRowConst]
  · intro r hr
    fin_cases hr <;> simp [pRowConst]
  · intro m h1 h2
    interval_cases m <;>
      exact ⟨pRowConst _, by simp [pfConst], rfl⟩
  · intro h
    simp [pfConst] at h

theorem wellFormed_pf13 : WellFormedNoMissingMonths pf13 := by
  refine ⟨by simp [pf13], ?_, ?_, ?_, ?_⟩
  · intro r hr
    fin_cases hr <;> norm_num [pRowConst]
  · intro r hr
    fin_cases hr <;> simp [pRowConst]
  · intro m h1 h2
    interval_cases m <;>
      exact ⟨pRowConst _, by simp [pf13], rfl⟩
  · intro h
    simp [pf13] at h

/-- Amended claim C2: on every well-formed input series with no missing
calendar months, simple_averages, ratio_to_trend, link_relatives and
ratio_to_median return arrays of length 12 whose non-null entries sum to
1200; ratio_to_moving_average does so provided the series has at least 13
rows (the shortest length at which a centered 12-month moving average
exists). -/
theorem C2_sum1200 (g : PFrame) (hwf : WellFormedNoMissingMonths g) :
    Sum1200Output (simple_averages g) ∧
    Sum1200Output (ratio_to_trend g) ∧
    Sum1200Output (link_relatives g) ∧
    Sum1200Output (ratio_to_median g) ∧
    (13 ≤ g.rows.length → Sum1200Output (ratio_to_moving_average g)) := by
  obtain ⟨hne, hpos, hmonths, hcover, htr⟩ := hwf
  exact ⟨simple_averages_contract g hne hpos hmonths,
    ratio_to_trend_contract g hne hpos hmonths htr,
    link_relatives_contract g hpos,
    ratio_to_median_contract g hne hpos hmonths,
    fun h13 => rtma_contract g h13 hpos hmonths⟩

/-- Counterexample to claim C2 as stated: the twelve-month constant series is
well formed with no missing calendar months, yet ratio_to_moving_average
returns the all-null array, whose non-null entries sum to 0, not 1200. -/
theorem C2_counterexample :
    WellFormedNoMissingMonths pfConst ∧
    (ratio_to_moving_average pfConst).length = 12 ∧
    nnSum (ratio_to_moving_average pfConst) ≠ 1200 := by
  have hshort : pfConst.rows.length < 13 := by norm_num [pfConst]
  refine ⟨wellFormed_pfConst, ?_, ?_⟩
  · rw [rtma_all_nan_of_short pfConst hshort]
    simp
  · rw [rtma_all_nan_of_short pfConst hshort, nnSum_replicate_nan]
    norm_num

/-- Witness for the amended claim C2 at the concrete thirteen-month constant
series, on which all five methods are in contract. -/
theorem C2_witness :
    WellFormedNoMissingMonths pf13 ∧ 13 ≤ pf13.rows.length ∧
    Sum1200Output (simple_averages pf13) ∧
    Sum1200Output (ratio_to_trend pf13) ∧
    Sum1200Output (link_relatives pf13) ∧
    Sum1200Output (ratio_to_median pf13) ∧
    Sum1200Output (ratio_to_moving_average pf13) := by
  have h13 : 13 ≤ pf13.rows.length := by norm_num [pf13]
  have h := C2_sum1200 pf13 wellFormed_pf13
  exact ⟨wellFormed_pf13, h13, h.1, h.2.1, h.2.2.1, h.2.2.2.1, h.2.2.2.2 h13⟩

/-! Concrete evaluation of the constant end-to-end scenario. -/

theorem adapter_const :
    to_canonical_monthly_df rawConstant ("m") ("municipality") ("year_month") none =
      .ok cfConst := by
  rfl

theorem prepare_const : prepare_monthly true cfConst = pfConst := by
  have hform : cfConst.rows = (List.range 12).map (fun k => cRowConst (k + 1)) := rfl
  have hpair : List.Pairwise (fun a b => rowLeB true a b = true) cfConst.rows := by
    rw [hform, List.pairwise_map]
    refine (List.pairwise_lt_range 12).imp ?_
    intro i j hij
    simp [rowLeB, cRowConst, dateLeB]
    omega
  unfold prepare_monthly
  rw [List.mergeSort_of_sorted hpair]
  rfl

theorem nansumF_replicate_100 : nansumF (List.replicate 12 (F.num 100)) = F.num 1200 := by
  have hform : List.replicate 12 (F.num 100) = xs100 := rfl
  rw [hform]
  unfold xs100 nansumF
  simp only [List.foldl_cons, List.foldl_nil, denan, faddF]
  norm_num

theorem scale_replicate_100 :
    scale_base100_to_sum1200 (List.replicate 12 (F.num 100)) = List.replicate 12 (F.num 100) :=
  scale_eq_self_of_nansum_1200 _ nansumF_replicate_100

theorem range12_lit : List.range 12 = [0, 1, 2, 3, 4, 5, 6, 7, 8, 9, 10, 11] := rfl

theorem evalA_const : simple_averages pfConst = List.replicate 12 (F.num 100) := by
  have hoverall : meanF (pfConst.rows.map (fun r => r.y)) = F.num 10 := by
    norm_num [pfConst, pRowConst, meanF]
  have hpre : monthMeansOver pfConst.rows (F.num 10) = List.replicate 12 (F.num 100) := by
    unfold monthMeansOver
    rw [range12_lit]
    norm_num [pfConst, pRowConst, monthRows, meanF, fdivF, fmulc, List.replicate]
  unfold simple_averages
  rw [hoverall, hpre]
  exact scale_replicate_100

theorem sortR_singleton (a : ℝ) : sortR [a] = [a] := by
  unfold sortR
  simp

theorem sortR_replicate (n : ℕ) (a : ℝ) : sortR (List.replicate n a) = List.replicate n a := by
  unfold sortR
  exact List.perm_replicate.1 (List.mergeSort_perm _ _)

theorem evalE_const : ratio_to_median pfConst = List.replicate 12 (F.num 100) := by
  have hmm : monthlyMedians pfConst.rows = List.replicate 12 (F.num 10) := by
    unfold monthlyMedians
    rw [range12_lit]
    norm_num [pfConst, pRowConst, monthRows, medianF, medianOfSorted, sortR_singleton,
      List.replicate]
  have hext : (List.replicate 12 (F.num 10)).filterMap
      (fun v => match v with | .num x => some x | _ => none) = List.replicate 12 (10 : ℝ) := rfl
  have hnm : nanmedianF (List.replicate 12 (F.num 10)) = F.num 10 := by
    unfold nanmedianF
    rw [hext]
    unfold medianF
    rw [if_neg (by simp)]
    rw [sortR_replicate]
    have hlit : List.replicate 12 (10 : ℝ) = [10, 10, 10, 10, 10, 10, 10, 10, 10, 10, 10, 10] :=
      rfl
    rw [hlit]
    norm_num [medianOfSorted]
  have hbase : medianBase100 (List.replicate 12 (F.num 10)) (F.num 10) =
      List.replicate 12 (F.num 100) := by
    simp only [medianBase100]
    rw [if_neg (by norm_num : ¬ (10 : ℝ) = 0)]
    rw [List.map_replicate]
    norm_num [fdivF, fmulc]
  unfold ratio_to_median
  rw [hmm, hnm, hbase]
  exact scale_replicate_100

theorem olsLogLinear_const : olsLogLinear pfConst.rows = (Real.log 10, 0) := by
  have hmax : max (10 : ℝ) (1 / 1000000000) = 10 := by norm_num
  unfold olsLogLinear
  norm_num [pfConst, pRowConst, hmax, List.zipWith]
  constructor <;> ring_nf

theorem fallbackTrendHat_const : fallbackTrendHat pfConst.rows = List.replicate 12 (10 : ℝ) := by
  unfold fallbackTrendHat
  rw [olsLogLinear_const]
  norm_num [pfConst, pRowConst, List.replicate, Real.exp_log]

theorem trendRatios_const : trendRatios pfConst = List.replicate 12 (some (1 : ℝ)) := by
  unfold trendRatios
  rw [if_neg (by simp [pfConst])]
  rw [fallbackTrendHat_const]
  norm_num [pfConst, pRowConst, ratioOverTrend, List.replicate]

theorem evalB_const : ratio_to_trend pfConst = List.replicate 12 (F.num 100) := by
  have hpre : monthMeanOfRatios pfConst.rows (trendRatios pfConst) =
      List.replicate 12 (F.num 100) := by
    rw [trendRatios_const]
    unfold monthMeanOfRatios
    rw [range12_lit]
    norm_num [pfConst, pRowConst, List.replicate, meanOpt, meanF, fmulc,
      List.filterMap_cons, List.filterMap_nil]
    rw [if_neg (by simp : ¬ (some (1 : ℝ) = none))]
    norm_num
  unfold ratio_to_trend
  rw [hpre]
  exact scale_replicate_100

theorem lrs_const : linkRelativesColumn (pfConst.rows.map (fun r => r.y)) =
    [none, some 100, some 100, some 100, some 100, some 100, some 100, some 100,
     some 100, some 100, some 100, some 100] := by
  norm_num [linkRelativesColumn, pfConst, pRowConst, range12_lit,
    List.getD_cons_zero, List.getD_cons_succ]

theorem avgLRs_const : avgLinkRelByMonth pfConst = F.nan :: List.replicate 11 (F.num 100) := by
  unfold avgLinkRelByMonth
  rw [lrs_const, range12_lit]
  norm_num [pfConst, pRowConst, meanOpt, meanF, List.filterMap_cons, List.filterMap_nil,
    List.replicate]
  exact fun h => absurd h (by simp)

theorem chainFrom_const_all (avgs : List F)
    (havgs : ∀ m, 1 ≤ m → m ≤ 11 → avgs.getD m F.nan = F.num 100) :
    ∀ m, m ≤ 11 → chainFrom avgs m = F.num 100 := by
  intro m
  induction m with
  | zero => intro _; rfl
  | succ m ih =>
    intro hm
    show chainStep (avgs.getD (m + 1) F.nan) (chainFrom avgs m) = F.num 100
    rw [havgs (m + 1) (by omega) (by omega), ih (by omega)]
    simp only [chainStep]
    rw [if_neg (by norm_num : ¬ (100 : ℝ) = 0)]
    have hstep : fmulF (F.num 100) (F.num (100 / 100)) = F.num (100 * (100 / 100)) := rfl
    rw [hstep]
    norm_num

theorem evalD_const : link_relatives pfConst = List.replicate 12 (F.num 100) := by
  have havgs : ∀ m, 1 ≤ m → m ≤ 11 →
      (avgLinkRelByMonth pfConst).getD m F.nan = F.num 100 := by
    intro m h1 h2
    rw [avgLRs_const]
    obtain ⟨m', rfl⟩ : ∃ m', m = m' + 1 := ⟨m - 1, by omega⟩
    rw [List.getD_cons_succ]
    rw [List.getD_eq_getElem _ _ (by simp; omega)]
    exact List.getElem_replicate _ _
  have hchain : chained_seasonal_index (avgLinkRelByMonth pfConst) =
      List.replicate 12 (F.num 100) := by
    unfold chained_seasonal_index
    refine List.eq_replicate_iff.2 ⟨by simp, ?_⟩
    intro b hb
    rcases List.mem_map.1 hb with ⟨i, hi, rfl⟩
    exact chainFrom_const_all _ havgs i (by have := List.mem_range.1 hi; omega)
  unfold link_relatives
  rw [hchain]
  exact scale_replicate_100

theorem method_results_const : method_results pfConst = constResult := by
  unfold method_results
  rw [evalA_const, evalB_const, evalD_const, evalE_const,
    rtma_all_nan_of_short pfConst (by norm_num [pfConst])]
  simp [json_safe_list, json_safe, constResult, flat100, allNull]

theorem run_const :
    compute_seasonality_run rawConstant ("m") ("municipality") ("year_month") none =
      .ok [("OVERALL", constResult), ("A", constResult)] := by
  unfold compute_seasonality_run
  rw [adapter_const]
  simp only [Except.map]
  rw [prepare_const]
  have hmunis : municipalitiesOf pfConst.rows = ["A"] := by
    unfold municipalitiesOf
    have hdups : (pfConst.rows.map (fun r => r.municipality)).eraseDups = ["A"] := rfl
    rw [hdups]
    simp
  unfold groupsOf
  rw [hmunis]
  have hfil : pfConst.rows.filter (fun r => r.municipality == "A") = pfConst.rows := rfl
  simp only [List.map_cons, List.map_nil, hfil]
  rw [method_results_const]

/-- Counterexample to claim C1 as stated: on the constant 12-month scenario
the run does not return five flat-100 arrays, because the
ratio-to-moving-average array of group "A" is entirely null. -/
theorem C1_counterexample : ¬ C1Statement := by
  rintro ⟨rs, hrs, rOver, rA, hOm, hAm, hEq, hA, hB, hC, hD, hE⟩
  rw [run_const] at hrs
  have hrseq : rs = [("OVERALL", constResult), ("A", constResult)] := by
    cases hrs
    rfl
  subst hrseq
  rcases List.mem_cons.1 hAm with h | h
  · have : ("A" : String) = "OVERALL" := congrArg Prod.fst h
    simp at this
  · rcases List.mem_cons.1 h with h2 | h2
    · have hrA : rA = constResult := congrArg Prod.snd h2
      rw [hrA] at hC
      have : allNull = flat100 := hC
      simp [allNull, flat100] at this
    · simp at h2

/-- Amended claim C1: on the constant 12-month scenario the run returns
identical results for "OVERALL" and "A"; methods A, B, D and E are flat at
100 with no nulls, while method C (ratio to moving average) is all null,
since no centered 12-month moving average exists on only 12 rows. -/
theorem C1_amended :
    compute_seasonality_run rawConstant ("m") ("municipality") ("year_month") none =
      .ok [("OVERALL", constResult), ("A", constResult)] ∧
    constResult.A_simple_averages = flat100 ∧
    constResult.B_ratio_to_trend = flat100 ∧
    constResult.D_link_relatives = flat100 ∧
    constResult.E_ratio_to_median = flat100 ∧
    constResult.C_ratio_to_moving_average = allNull :=
  ⟨run_const, rfl, rfl, rfl, rfl, rfl⟩

/-- Witness for C8 at the concrete unsorted two-group frame, in the
multi-key branch where the stability conjunct applies. -/
theorem C8_witness :
    ((prepare_monthly true cfTwoGroups).rows.map stripPRow).Perm cfTwoGroups.rows ∧
    ((prepare_monthly true cfTwoGroups).rows.map stripPRow).Pairwise
      (fun a b => rowLeB true a b = true) ∧
    (true = true →
      ∀ a b : CanonRow, rowLeB true a b = true → List.Sublist [a, b] cfTwoGroups.rows →
      List.Sublist [a, b] ((prepare_monthly true cfTwoGroups).rows.map stripPRow)) ∧
    (∀ r ∈ (prepare_monthly true cfTwoGroups).rows,
      r.month = r.date.month ∧
      r.time_index = (r.date.year - minYearOf cfTwoGroups.rows) * 12 + (r.date.month - 1)) :=
  C8_prepare_monthly true cfTwoGroups

end Tuscany
